import Mathlib

/-!
# Document segmentation and similarity metrics (`src/similarity.js`)

A shallow embedding of the segmenter `getQuestions`, the three hand-written
metrics `levenshteinSimilarity`, `jaccardSimilarity`, `cosineSimilarity`, and
the aggregation loop of `processDir`.

Modelling conventions.

* A JavaScript string is the list of its UTF-16 code units; `length` is the
  length of that list.
* A JavaScript number is an IEEE-754 double.  Finite doubles are represented by
  the rational they denote and every arithmetic operation rounds its exact
  result to the nearest double, ties to even (`rnd`).  The exponent range is
  taken to be unbounded (no overflow, no subnormals) and `-0` is identified
  with `0`: every quantity of this program is a length, a count, a quotient of
  two such, or a square root, far inside the normal range.
* Integer quantities (lengths, set sizes, term frequencies, their sums of
  products and differences) are computed exactly; doubles represent integers
  exactly below `2^53`.
* `String.prototype.toLowerCase`, the word pattern of `natural.WordTokenizer`
  and the `string-comparison` metrics are parameters of the definitions that
  use them.
-/

namespace Bakalauras

/-! ## Strings -/

/-- A JavaScript string: its sequence of UTF-16 code units. -/
abbrev JSString := List Nat

/-- The UTF-16 code units of one Unicode scalar value. -/
def utf16Units (c : Char) : List Nat :=
  if c.toNat < 65536 then [c.toNat]
  else [55296 + (c.toNat - 65536) / 1024, 56320 + (c.toNat - 65536) % 1024]

/-- The JavaScript string written by a Lean string literal. -/
def utf16 (s : String) : JSString := s.toList.flatMap utf16Units

/-! ## Numbers -/

/-- Auxiliary of `floorLog2`: halve until below two, at most `fuel` times. -/
def floorLog2Fuel : ℕ → ℕ → ℕ
  | 0, _ => 0
  | fuel + 1, n => if n < 2 then 0 else floorLog2Fuel fuel (n / 2) + 1

/-- Position of the leading one bit: `⌊log₂ n⌋` for positive `n`. -/
def floorLog2 (n : ℕ) : ℕ := floorLog2Fuel n n

/-- Binade of a non-zero rational: `⌊log₂ |x|⌋`. -/
def binade (x : ℚ) : ℤ :=
  let e : ℤ := (floorLog2 x.num.natAbs : ℤ) - (floorLog2 x.den : ℤ)
  if |x| < (2 : ℚ) ^ e then e - 1 else e

/-- Unit in the last place of the 53-bit significand of the binade of `x`. -/
def ulp (x : ℚ) : ℚ := (2 : ℚ) ^ (binade x - 52)

/-- Nearest integer, ties to the even one. -/
def roundHalfEven (y : ℚ) : ℤ :=
  if y - ⌊y⌋ < 1 / 2 then ⌊y⌋
  else if 1 / 2 < y - ⌊y⌋ then ⌊y⌋ + 1
  else if ⌊y⌋ % 2 = 0 then ⌊y⌋ else ⌊y⌋ + 1

/-- Round a rational to the nearest double (round-to-nearest, ties-to-even). -/
def rnd (x : ℚ) : ℚ := (roundHalfEven (x / ulp x) : ℚ) * ulp x

/-- Integer square root by bisection on the bits `b-1 .. 0`, starting from `r`. -/
def isqrtBits (n : ℕ) : ℕ → ℕ → ℕ
  | 0, r => r
  | b + 1, r => if (r + 2 ^ b) ^ 2 ≤ n then isqrtBits n b (r + 2 ^ b) else isqrtBits n b r

/-- Correctly rounded square root of a non-negative rational: the argument is
scaled by a power of four into `[2^104, 2^106)`, whose integer square root has
exactly 53 bits, and the last bit is decided by comparing with the midpoint. -/
def sqrtRnd (x : ℚ) : ℚ :=
  if x ≤ 0 then 0
  else
    let k : ℤ := (binade x - 104) / 2
    let z : ℚ := x / (4 : ℚ) ^ k
    let m : ℕ := isqrtBits ⌊z⌋₊ 53 0
    let mid : ℚ := ((m : ℚ) + 1 / 2) ^ 2
    let r : ℕ := if z < mid then m else if mid < z then m + 1 else if m % 2 = 0 then m else m + 1
    (r : ℚ) * (2 : ℚ) ^ k

/-- A JavaScript number: `NaN`, an infinity, or a finite double given by its value. -/
inductive JSNumber where
  | nan
  | pinf
  | ninf
  | fin (q : ℚ)
  deriving DecidableEq

namespace JSNumber

/-- An integer-valued number (exact below `2^53`). -/
def ofNat (n : ℕ) : JSNumber := fin n

/-- The `+` of two numbers. -/
def add : JSNumber → JSNumber → JSNumber
  | fin a, fin b => fin (rnd (a + b))
  | nan, _ => nan
  | _, nan => nan
  | pinf, ninf => nan
  | ninf, pinf => nan
  | pinf, _ => pinf
  | _, pinf => pinf
  | ninf, _ => ninf
  | _, ninf => ninf

/-- The `*` of two numbers. -/
def mul : JSNumber → JSNumber → JSNumber
  | fin a, fin b => fin (rnd (a * b))
  | nan, _ => nan
  | _, nan => nan
  | pinf, fin b => if b = 0 then nan else if 0 < b then pinf else ninf
  | ninf, fin b => if b = 0 then nan else if 0 < b then ninf else pinf
  | fin a, pinf => if a = 0 then nan else if 0 < a then pinf else ninf
  | fin a, ninf => if a = 0 then nan else if 0 < a then ninf else pinf
  | pinf, pinf => pinf
  | ninf, ninf => pinf
  | pinf, ninf => ninf
  | ninf, pinf => ninf

/-- The `/` of two numbers; `0 / 0` is `NaN`. -/
def div : JSNumber → JSNumber → JSNumber
  | fin a, fin b =>
    if b = 0 then (if a = 0 then nan else if 0 < a then pinf else ninf)
    else fin (rnd (a / b))
  | nan, _ => nan
  | _, nan => nan
  | fin _, pinf => fin 0
  | fin _, ninf => fin 0
  | pinf, fin b => if 0 ≤ b then pinf else ninf
  | ninf, fin b => if 0 ≤ b then ninf else pinf
  | pinf, pinf => nan
  | pinf, ninf => nan
  | ninf, pinf => nan
  | ninf, ninf => nan

/-- The function `Math.sqrt`. -/
def sqrt : JSNumber → JSNumber
  | fin a => if a < 0 then nan else fin (sqrtRnd a)
  | pinf => pinf
  | _ => nan

end JSNumber

/-! ## Edit distance (`fast-levenshtein`) -/

/-- The classic edit distance, by its textbook recursion: the least number of
single-character insertions, deletions and substitutions turning one string
into the other (`editDistance_eq_levenshtein` identifies it with Mathlib's
`levenshtein` at unit costs). -/
def editDistance : JSString → JSString → ℕ
  | [], t => t.length
  | a :: s, [] => s.length + 1
  | a :: s, b :: t =>
    min (editDistance s (b :: t) + 1)
      (min (editDistance (a :: s) t + 1) (editDistance s t + if a = b then 0 else 1))
termination_by s t => s.length + t.length

/-- One row of the dynamic programme: from the distances of `s` to every
suffix of `t` (longest first), the distances of `a :: s` to every suffix of `t`. -/
def rowStep (a : Nat) : JSString → List ℕ → List ℕ
  | b :: t, p0 :: p1 :: ps =>
    match rowStep a t (p1 :: ps) with
    | r :: rs => min (p0 + 1) (min (r + 1) (p1 + if a = b then 0 else 1)) :: r :: rs
    | [] => []
  | _, ps => ps.map (· + 1)

/-- Modelled from the spec: `levenshtein.get` of the npm package
`fast-levenshtein`, which the repository imports but does not contain.  It
returns the classic insert/delete/substitute edit distance of its two
arguments, compared code unit by code unit; it is computed here row by row, as
a dynamic programme (`levenshtein_get_eq_editDistance` relates it to the
recursive definition). -/
def levenshtein_get (str1 str2 : JSString) : ℕ :=
  (str1.foldr (fun a row => rowStep a str2 row) (str2.tails.map List.length)).headD 0

/-! ## What the program takes from its host -/

/-- Built-in and third-party functions the repository calls but does not contain. -/
structure Host where
  /-- The built-in `String.prototype.toLowerCase`. -/
  toLowerCase : JSString → JSString
  /-- The characters that `natural.WordTokenizer` keeps inside a token. -/
  wordChar : Nat → Bool
  /-- The function `comparison.default.<name>.similarity` of the package
  `string-comparison`, by the name of the algorithm. -/
  comparison : String → JSString → JSString → JSNumber

/-! ## Tokens and sets -/

/-- The class `\w` of a regular expression without the `u` flag: `[A-Za-z0-9_]`. -/
def isWordChar (c : Nat) : Bool :=
  (48 ≤ c && c ≤ 57) || (65 ≤ c && c ≤ 90) || c = 95 || (97 ≤ c && c ≤ 122)

/-- The pieces of `s.split(pattern)` that are not empty, for a pattern matching
a run of one or more separator characters. -/
def splitNonEmpty (isSep : Nat → Bool) (s : JSString) : List JSString :=
  (s.splitOnP isSep).filter (fun piece => !piece.isEmpty)

/-- Modelled from the spec: `tokenize` of `natural.WordTokenizer`, a package
the repository imports but does not contain: the text is split on runs of
characters outside the tokenizer's word class and empty pieces are discarded. -/
def wordTokenize (h : Host) (text : JSString) : List JSString :=
  splitNonEmpty (fun c => !h.wordChar c) text

/-- The elements of `new Set(xs)` in insertion order. -/
def newSet (xs : List JSString) : List JSString :=
  xs.foldl (fun set x => if x ∈ set then set else set ++ [x]) []

/-! ## The three metrics -/

/-- The function `levenshteinSimilarity(text1, text2)`, lines 274-283.  The distance and
the maximal length are integers, and so is their difference, which is
therefore computed exactly. -/
def levenshteinSimilarity (text1 text2 : JSString) : JSNumber :=
  let levenshteinDistance : ℕ := levenshtein_get text1 text2
  let maxLength : ℕ := max text1.length text2.length
  let similarityPercentage :=
    ((JSNumber.fin ((maxLength : ℚ) - (levenshteinDistance : ℚ))).div
      (JSNumber.ofNat maxLength)).mul (JSNumber.ofNat 100)
  similarityPercentage

/-- The local `tokenize` of `jaccardSimilarity`, lines 252-254. -/
def tokenize (h : Host) (text : JSString) : List JSString :=
  newSet (splitNonEmpty (fun c => !isWordChar c) (h.toLowerCase text))

/-- The function `jaccardSimilarity(text1, text2)`, lines 250-272. -/
def jaccardSimilarity (h : Host) (text1 text2 : JSString) : JSNumber :=
  let tokens1 := tokenize h text1
  let tokens2 := tokenize h text2
  let intersection := newSet (tokens1.filter (fun token => decide (token ∈ tokens2)))
  let union := newSet (tokens1 ++ tokens2)
  let jaccardIndex := (JSNumber.ofNat intersection.length).div (JSNumber.ofNat union.length)
  let similarityPercentage := jaccardIndex.mul (JSNumber.ofNat 100)
  similarityPercentage

/-- The result of `vocabulary.indexOf(token)`; `none` stands for `-1`. -/
def indexOf (token : JSString) : List JSString → Option ℕ
  | [] => none
  | v :: vocabulary => if v = token then some 0 else (indexOf token vocabulary).map (· + 1)

/-- The callback of `tokens.forEach` in `termFrequency`, lines 215-220: the
entry at the index of the token, when it has one, is incremented. -/
def countToken (vocabulary : List JSString) (tf : List ℕ) (token : JSString) : List ℕ :=
  match indexOf token vocabulary with
  | some index => tf.set index (tf.getD index 0 + 1)
  | none => tf

/-- The local `termFrequency` of `cosineSimilarity`, lines 213-222: a vector of
zeros, one per vocabulary entry, incremented at the index of each token. -/
def termFrequency (tokens vocabulary : List JSString) : List ℕ :=
  tokens.foldl (countToken vocabulary) (List.replicate vocabulary.length 0)

/-- The accumulators of the loop of `cosineSimilarity2`. -/
structure Sums where
  dotProduct : ℕ
  normA : ℕ
  normB : ℕ
  deriving DecidableEq

/-- The loop of `cosineSimilarity2`, lines 233-237 (both vectors have the
length of the vocabulary). -/
def cosineSums (vecA vecB : List ℕ) : Sums :=
  (List.range vecA.length).foldl
    (fun acc i =>
      { dotProduct := acc.dotProduct + vecA.getD i 0 * vecB.getD i 0
        normA := acc.normA + vecA.getD i 0 * vecA.getD i 0
        normB := acc.normB + vecB.getD i 0 * vecB.getD i 0 })
    ⟨0, 0, 0⟩

/-- The local `cosineSimilarity2`, lines 228-242. -/
def cosineSimilarity2 (vecA vecB : List ℕ) : JSNumber :=
  let sums := cosineSums vecA vecB
  if sums.normA = 0 ∨ sums.normB = 0 then JSNumber.ofNat 0
  else
    (JSNumber.ofNat sums.dotProduct).div
      ((JSNumber.ofNat sums.normA).sqrt.mul (JSNumber.ofNat sums.normB).sqrt)

/-- The function `cosineSimilarity(text1, text2)`, lines 202-248. -/
def cosineSimilarity (h : Host) (text1 text2 : JSString) : JSNumber :=
  let tokens1 := wordTokenize h (h.toLowerCase text1)
  let tokens2 := wordTokenize h (h.toLowerCase text2)
  let vocabulary := newSet (tokens1 ++ tokens2)
  let vectorA := termFrequency tokens1 vocabulary
  let vectorB := termFrequency tokens2 vocabulary
  let similarity := cosineSimilarity2 vectorA vectorB
  let similarityPercentage := similarity.mul (JSNumber.ofNat 100)
  similarityPercentage

/-- The accumulators `cosineSimilarity` ends its loop with, as a function of
the two token lists (an abbreviation used to state properties). -/
def tokenSums (tokens1 tokens2 : List JSString) : Sums :=
  cosineSums (termFrequency tokens1 (newSet (tokens1 ++ tokens2)))
    (termFrequency tokens2 (newSet (tokens1 ++ tokens2)))

/-! ## Objects -/

/-- Own properties of a JavaScript object, in the order of their first
assignment.  (JavaScript enumerates integer-like names in ascending order before
the others; the program enumerates only `stats.questions`, whose keys are
assigned in ascending order, and objects with non-numeric names.  A QuestionMap
is only read by key.) -/
abbrev JSObject (κ α : Type) := List (κ × α)

/-- The value of `obj[key]`; `none` is `undefined`. -/
def lookupKey {κ α : Type} [DecidableEq κ] (obj : JSObject κ α) (key : κ) : Option α :=
  match obj with
  | [] => none
  | (k, v) :: rest => if k = key then some v else lookupKey rest key

/-- The object after `obj[key] = value` (also `{...obj, [key]: value}`): an
existing property keeps its place, a new one is added last. -/
def assign {κ α : Type} [DecidableEq κ] (obj : JSObject κ α) (key : κ) (value : α) :
    JSObject κ α :=
  match obj with
  | [] => [(key, value)]
  | (k, v) :: rest => if k = key then (k, value) :: rest else (k, v) :: assign rest key value

/-- The decimal digits of `n`, most significant first; `fuel` bounds their number. -/
def decimal : ℕ → ℕ → JSString
  | 0, _ => []
  | fuel + 1, n => if n < 10 then [48 + n] else decimal fuel (n / 10) ++ [48 + n % 10]

/-- The property name of an index: `ToString(i)`, the decimal numeral of `i`
(JavaScript writes an integer so below `10^21`). -/
def numberToString (i : ℕ) : JSString := decimal (i + 1) i

/-! ## Segmentation -/

/-- The first replacement of `eol`: every `\r\n` becomes `\n`. -/
def crlfToLf : JSString → JSString
  | [] => []
  | [c] => [c]
  | c :: d :: t => if c = 13 ∧ d = 10 then 10 :: crlfToLf t else c :: crlfToLf (d :: t)

/-- The normaliser `eol` (`unifyEol` in `utils.js`): first every `\r\n`, then every
remaining `\r`, becomes `\n`. -/
def eol (content : JSString) : JSString :=
  (crlfToLf content).map (fun c => if c = 13 then 10 else c)

/-- The normaliser `unifyEol` of `utils.js`, lines 193-194: the same two
replacements as `eol`. -/
def unifyEol (content : JSString) : JSString :=
  (crlfToLf content).map (fun c => if c = 13 then 10 else c)

/-- The normalisation as the specification words it, in one pass from the left:
a `\r\n` pair becomes one `\n`, any other `\r` becomes one `\n`, and every
other character is kept. -/
def normaliseLineEndings : JSString → JSString
  | [] => []
  | [c] => [if c = 13 then 10 else c]
  | c :: d :: t =>
    if c = 13 ∧ d = 10 then 10 :: normaliseLineEndings t
    else (if c = 13 then 10 else c) :: normaliseLineEndings (d :: t)

/-- The class `\d` of a regular expression without the `u` flag: `[0-9]`. -/
def isDigit (c : Nat) : Bool := 48 ≤ c && c ≤ 57

/-- The characters removed by `String.prototype.trim`: white space and line
terminators. -/
def isWhiteSpace (c : Nat) : Bool :=
  c = 9 || c = 10 || c = 11 || c = 12 || c = 13 || c = 32 || c = 160 || c = 5760 ||
    (8192 ≤ c && c ≤ 8202) || c = 8232 || c = 8233 || c = 8239 || c = 8287 ||
    c = 12288 || c = 65279

/-- The built-in `String.prototype.trim`. -/
def trim (s : JSString) : JSString := (s.rdropWhile isWhiteSpace).dropWhile isWhiteSpace

/-- The tail `([\s\S]*?)(\n\n)` of the pattern: the lazy group stops at the
first blank line; returns the group and what follows the blank line. -/
def splitAtBlankLine : JSString → Option (JSString × JSString)
  | [] => none
  | c :: t =>
    if c = 10 ∧ t.head? = some 10 then some ([], t.tail)
    else (splitAtBlankLine t).map (fun p => (c :: p.1, p.2))

/-- One attempt of `/(\d+)\. ([\s\S]*?)(\n\n)/` at the start of `s`: the two
captures and the text after the match.  The greedy `\d+` takes the whole run
of digits; giving a digit back cannot help, since a digit would then stand
where the period is required. -/
def matchAt (s : JSString) : Option (JSString × JSString × JSString) :=
  let digits := s.takeWhile isDigit
  if digits = [] then none
  else
    match s.dropWhile isDigit with
    | c₁ :: c₂ :: rest =>
      if c₁ = 46 ∧ c₂ = 32 then (splitAtBlankLine rest).map (fun p => (digits, p.1, p.2))
      else none
    | _ => none

/-- The successive matches of `matchAll`: the leftmost match from the current
position, then on from the end of that match.  `fuel` bounds the number of
start positions tried. -/
def matchAllFuel : ℕ → JSString → List (JSString × JSString)
  | 0, _ => []
  | _, [] => []
  | fuel + 1, c :: t =>
    match matchAt (c :: t) with
    | some (digits, body, rest) => (digits, body) :: matchAllFuel fuel rest
    | none => matchAllFuel fuel t

/-- The captures `(match[1], match[2])` of every match of the pattern in `s`. -/
def matchAll (s : JSString) : List (JSString × JSString) := matchAllFuel s.length s

/-- The function `getQuestions(content)`, lines 166-177 (and `utils.js` 196-209,
which first reads and normalises the file). -/
def getQuestions (content : JSString) : JSObject JSString JSString :=
  let allMatches := matchAll ([10, 10] ++ content ++ [10, 10])
  allMatches.foldl (fun obj m => assign obj m.1 (trim m.2)) []

/-- The text `"{i}. {body}\n\n"` of one question block, `digits` being the
numeral of `i` as written (an abbreviation used to state properties). -/
def questionBlock (digits body : JSString) : JSString := digits ++ [46, 32] ++ body ++ [10, 10]

/-- The concatenation of the blocks of a list of (numeral, body) pairs. -/
def document (blocks : List (JSString × JSString)) : JSString :=
  blocks.flatMap (fun block => questionBlock block.1 block.2)

/-- The text contains no blank line, that is no `"\n\n"`. -/
def NoBlankLine (body : JSString) : Prop := ¬ [10, 10] <:+: body

/-- The text is a numeral: one or more decimal digits. -/
def IsNumeral (digits : JSString) : Prop := digits ≠ [] ∧ ∀ c ∈ digits, isDigit c = true

/-! ## Aggregation -/

/-- Exceptions raised by the program. -/
inductive JSError where
  | typeError
  deriving DecidableEq

/-- The object returned by `similarity`: algorithm name to score. -/
abbrev SimilarityResult := JSObject String JSNumber

/-- The function `similarity(text1, text2)`, lines 179-200; an argument is a string or
`undefined`.  With an `undefined` argument the first property evaluated,
`levenshteinSimilarity(text1, text2)`, throws a `TypeError`: `levenshtein.get`
and line 276 both read `.length` of it. -/
def similarity (h : Host) (text1 text2 : Option JSString) : Except JSError SimilarityResult :=
  match text1, text2 with
  | some text1, some text2 =>
    .ok
      [ ("levenshtein", levenshteinSimilarity text1 text2),
        ("jaccard", jaccardSimilarity h text1 text2),
        ("cosine", cosineSimilarity h text1 text2),
        ("npm_cosine", (h.comparison "cosine" text1 text2).mul (JSNumber.ofNat 100)),
        ("npm_diceCoefficient",
          (h.comparison "diceCoefficient" text1 text2).mul (JSNumber.ofNat 100)),
        ("npm_jaccardIndex", (h.comparison "jaccardIndex" text1 text2).mul (JSNumber.ofNat 100)),
        ("npm_levenshtein", (h.comparison "levenshtein" text1 text2).mul (JSNumber.ofNat 100)),
        ("npm_lcs", (h.comparison "lcs" text1 text2).mul (JSNumber.ofNat 100)),
        ("npm_longestCommonSubsequence",
          (h.comparison "longestCommonSubsequence" text1 text2).mul (JSNumber.ofNat 100)),
        ("npm_mlcs", (h.comparison "mlcs" text1 text2).mul (JSNumber.ofNat 100)),
        ("npm_metricLcs", (h.comparison "metricLcs" text1 text2).mul (JSNumber.ofNat 100)),
        ("npm_jaroWinkler", (h.comparison "jaroWinkler" text1 text2).mul (JSNumber.ofNat 100)) ]
  | _, _ => .error .typeError

/-- The loop of lines 126-128: `stats.questions[i] = similarity(sourceQuestions[i],
targetQuestions[i])` for `i` from 1 to 50. -/
def questionsLoop (h : Host) (sourceQuestions targetQuestions : JSObject JSString JSString) :
    Except JSError (JSObject ℕ SimilarityResult) :=
  (List.range' 1 50).foldlM
    (fun questions i => do
      let result ← similarity h (lookupKey sourceQuestions (numberToString i))
        (lookupKey targetQuestions (numberToString i))
      pure (assign questions i result))
    []

/-- The value `Number(stats.questions[key][algo])`. -/
def score (questions : JSObject ℕ SimilarityResult) (key : ℕ) (algo : String) : JSNumber :=
  match lookupKey questions key with
  | some result => (lookupKey result algo).getD .nan
  | none => .nan

/-- The averaging loops of lines 131-142. -/
def averages (algorithms : List String) (questions : JSObject ℕ SimilarityResult) :
    SimilarityResult :=
  let questionKeys := questions.map (·.1)
  algorithms.foldl
    (fun average algo =>
      let total := questionKeys.foldl (fun sum key => sum.add (score questions key algo))
        (JSNumber.ofNat 0)
      assign average algo (total.div (JSNumber.ofNat questionKeys.length)))
    []

/-- The three tables built by `processDir`. -/
structure Stats where
  files : SimilarityResult
  average : SimilarityResult
  questions : JSObject ℕ SimilarityResult

/-- The computation of `processDir`, lines 112-142, from the contents of the
two chosen files. -/
def processDir (h : Host) (source target : JSString) : Except JSError Stats := do
  let sourceText := eol source
  let targetText := eol target
  let files ← similarity h (some sourceText) (some targetText)
  let sourceQuestions := getQuestions sourceText
  let targetQuestions := getQuestions targetText
  let questions ← questionsLoop h sourceQuestions targetQuestions
  let algorithms := files.map (·.1)
  pure { files := files, average := averages algorithms questions, questions := questions }

/-! ## The report table -/

/-- The cell `obj[algo].toFixed(2)`; `toFixed` is the built-in
`Number.prototype.toFixed` at two digits, a parameter here.  Reading `toFixed`
of `undefined` throws a `TypeError`. -/
def fixedCell (toFixed : JSNumber → JSString) (obj : SimilarityResult) (algo : String) :
    Except JSError JSString :=
  match lookupKey obj algo with
  | some value => .ok (toFixed value)
  | none => .error .typeError

/-- The row of one question, lines 154-157: `[qId, ...algorithms.map((algo) =>
stats.questions[qId][algo].toFixed(2))]`, the key `qId` being the numeral of the index. -/
def questionRow (toFixed : JSNumber → JSString) (algorithms : List String)
    (questions : JSObject ℕ SimilarityResult) (qId : ℕ) : Except JSError (List JSString) := do
  let cells ← algorithms.mapM
    (fun algo =>
      match lookupKey questions qId with
      | some result => fixedCell toFixed result algo
      | none => .error .typeError)
  pure (numberToString qId :: cells)

/-- The array of rows handed to `stringify`, lines 146-158, `source` and `target`
being the two chosen file names and `algorithms` the `Object.keys(stats.files)` of
line 131.  In line 148 the parenthesis `('Source file', source)` is a comma
expression, so that row has the single cell `source`. -/
def reportRows (toFixed : JSNumber → JSString) (source target : JSString) (stats : Stats) :
    Except JSError (List (List JSString)) := do
  let algorithms := stats.files.map (·.1)
  let filesCells ← algorithms.mapM (fun algo => fixedCell toFixed stats.files algo)
  let averageCells ← algorithms.mapM (fun algo => fixedCell toFixed stats.average algo)
  let questionRows ← (stats.questions.map (·.1)).mapM
    (fun qId => questionRow toFixed algorithms stats.questions qId)
  pure
    ([ [utf16 "sep=,"],
       [source],
       [utf16 "Target file", target],
       [],
       utf16 "" :: algorithms.map utf16,
       utf16 "Files" :: filesCells,
       utf16 "Averages" :: averageCells ] ++ questionRows)

/-- The twelve algorithm names, in the order in which `similarity` writes them. -/
def algorithmNames : List String :=
  [ "levenshtein", "jaccard", "cosine", "npm_cosine", "npm_diceCoefficient",
    "npm_jaccardIndex", "npm_levenshtein", "npm_lcs", "npm_longestCommonSubsequence",
    "npm_mlcs", "npm_metricLcs", "npm_jaroWinkler" ]

/-- The value `obj[algo]` as a number, `NaN` standing for a missing property. -/
def valueOf (obj : SimilarityResult) (algo : String) : JSNumber :=
  (lookupKey obj algo).getD .nan

/-- A model of `Number.prototype.toFixed(2)` for evaluation: `NaN` and the
infinities by name; otherwise the sign, then the integer nearest to `100 * |x|`
(the larger one on a tie) written with a point before its last two digits.
(JavaScript writes so for magnitudes below `10^21`.) -/
def toFixed2 : JSNumber → JSString
  | .nan => utf16 "NaN"
  | .pinf => utf16 "Infinity"
  | .ninf => utf16 "-Infinity"
  | .fin x =>
    let n : ℕ := ⌊|x| * 100 + 1 / 2⌋₊
    (if x < 0 then [45] else []) ++ numberToString (n / 100) ++ [46] ++
      [48 + n % 100 / 10, 48 + n % 10]

/-! ## A concrete host for evaluation -/

/-- Lower-casing of the ASCII letters; `toLowerCase` acts so on ASCII text. -/
def asciiLower (s : JSString) : JSString :=
  s.map (fun c => if 65 ≤ c ∧ c ≤ 90 then c + 32 else c)

/-- A host whose `toLowerCase` is `asciiLower`, whose tokenizer keeps
`[A-Za-z0-9_]` and whose supplementary metrics are constantly zero.  On ASCII
text the built-in `toLowerCase` and the word class of `natural.WordTokenizer`
(`[A-Za-zА-Яа-я0-9_]`) act as this host does. -/
def asciiHost : Host where
  toLowerCase := asciiLower
  wordChar := isWordChar
  comparison := fun _ _ _ => JSNumber.ofNat 0

/-- An input for evaluation: the 52 blocks `"i. q\n\n"`, `i` from 1 to 52. -/
def sampleSource : JSString :=
  document ((List.range' 1 52).map (fun i => (numberToString i, utf16 "q")))

/-- An input for evaluation: the 51 blocks `"1. x\n\n"` and `"i. q\n\n"`, `i` from 2 to 51. -/
def sampleTarget : JSString :=
  document ((numberToString 1, utf16 "x") ::
    (List.range' 2 50).map (fun i => (numberToString i, utf16 "q")))

/-- An input for evaluation: the first 50 blocks of `sampleSource`. -/
def exactSource : JSString :=
  document ((List.range' 1 50).map (fun i => (numberToString i, utf16 "q")))

/-- An input for evaluation: the first 50 blocks of `sampleTarget`. -/
def exactTarget : JSString :=
  document ((numberToString 1, utf16 "x") ::
    (List.range' 2 49).map (fun i => (numberToString i, utf16 "q")))

/-! ## Rounding to double precision -/

theorem floorLog2Fuel_spec (fuel : ℕ) : ∀ n : ℕ, n ≤ fuel → 1 ≤ n →
    2 ^ floorLog2Fuel fuel n ≤ n ∧ n < 2 ^ (floorLog2Fuel fuel n + 1) := by
  induction fuel with
  | zero => intro n h1 h2; omega
  | succ fuel ih =>
    intro n hn h1
    unfold floorLog2Fuel
    split_ifs with h2
    · constructor <;> simp <;> omega
    · have := ih (n / 2) (by omega) (by omega)
      rw [pow_succ, pow_succ]
      rw [pow_succ] at this
      omega

theorem floorLog2_spec (n : ℕ) (h : 1 ≤ n) :
    2 ^ floorLog2 n ≤ n ∧ n < 2 ^ (floorLog2 n + 1) :=
  floorLog2Fuel_spec n n le_rfl h

theorem binade_spec (x : ℚ) (hx : x ≠ 0) :
    (2 : ℚ) ^ binade x ≤ |x| ∧ |x| < (2 : ℚ) ^ (binade x + 1) := by
  have hN : 1 ≤ x.num.natAbs := by
    have : x.num ≠ 0 := Rat.num_ne_zero.mpr hx
    omega
  have hD : 1 ≤ x.den := x.den_pos
  obtain ⟨hN1, hN2⟩ := floorLog2_spec _ hN
  obtain ⟨hD1, hD2⟩ := floorLog2_spec _ hD
  have habs : |x| = (x.num.natAbs : ℚ) / (x.den : ℚ) := by
    conv_lhs => rw [← Rat.num_div_den x]
    rw [abs_div, Nat.abs_cast, Nat.cast_natAbs, Int.cast_abs]
  set a := floorLog2 x.num.natAbs
  set b := floorLog2 x.den
  have hDpos : (0 : ℚ) < x.den := by exact_mod_cast hD
  have hN1' : (2 : ℚ) ^ a ≤ (x.num.natAbs : ℚ) := by exact_mod_cast hN1
  have hN2' : (x.num.natAbs : ℚ) < (2 : ℚ) ^ (a + 1) := by exact_mod_cast hN2
  have hD1' : (2 : ℚ) ^ b ≤ (x.den : ℚ) := by exact_mod_cast hD1
  have hD2' : (x.den : ℚ) < (2 : ℚ) ^ (b + 1) := by exact_mod_cast hD2
  have e1 : (2 : ℚ) ^ ((a : ℤ) - (b : ℤ) - 1) = (2 : ℚ) ^ a / (2 : ℚ) ^ (b + 1) := by
    rw [show (a : ℤ) - (b : ℤ) - 1 = (a : ℤ) - ((b + 1 : ℕ) : ℤ) by push_cast; ring]
    rw [zpow_sub₀ (by norm_num), zpow_natCast, zpow_natCast]
  have e2 : (2 : ℚ) ^ ((a : ℤ) - (b : ℤ) + 1) = (2 : ℚ) ^ (a + 1) / (2 : ℚ) ^ b := by
    rw [show (a : ℤ) - (b : ℤ) + 1 = ((a + 1 : ℕ) : ℤ) - (b : ℤ) by push_cast; ring]
    rw [zpow_sub₀ (by norm_num), zpow_natCast, zpow_natCast]
  have lo : (2 : ℚ) ^ ((a : ℤ) - (b : ℤ) - 1) ≤ |x| := by
    rw [e1, habs, div_le_div_iff₀ (by positivity) hDpos]
    calc (2 : ℚ) ^ a * x.den ≤ x.num.natAbs * x.den := by gcongr
      _ ≤ x.num.natAbs * 2 ^ (b + 1) := by gcongr
  have hi : |x| < (2 : ℚ) ^ ((a : ℤ) - (b : ℤ) + 1) := by
    rw [e2, habs, div_lt_div_iff₀ hDpos (by positivity)]
    calc (x.num.natAbs : ℚ) * 2 ^ b < 2 ^ (a + 1) * 2 ^ b := by gcongr
      _ ≤ 2 ^ (a + 1) * x.den := by gcongr
  unfold binade
  simp only
  split_ifs with h
  · exact ⟨lo, by simpa using h⟩
  · exact ⟨not_lt.mp h, hi⟩

theorem roundHalfEven_sub_le (y : ℚ) : |(roundHalfEven y : ℚ) - y| ≤ 1 / 2 := by
  have h1 := Int.floor_le y
  have h2 := Int.lt_floor_add_one y
  unfold roundHalfEven
  split_ifs with a b c
  · rw [abs_le]; constructor <;> linarith
  · rw [abs_le]; push_cast; constructor <;> linarith
  · rw [abs_le]; constructor <;> linarith
  · rw [abs_le]; push_cast; constructor <;> linarith

theorem roundHalfEven_bounds (y : ℚ) : ⌊y⌋ ≤ roundHalfEven y ∧ roundHalfEven y ≤ ⌊y⌋ + 1 := by
  unfold roundHalfEven
  split_ifs <;> constructor <;> omega

theorem roundHalfEven_intCast (n : ℤ) : roundHalfEven (n : ℚ) = n := by
  unfold roundHalfEven
  simp

theorem roundHalfEven_mono {y₁ y₂ : ℚ} (h : y₁ ≤ y₂) : roundHalfEven y₁ ≤ roundHalfEven y₂ := by
  have hf : ⌊y₁⌋ ≤ ⌊y₂⌋ := Int.floor_mono h
  rcases hf.lt_or_eq with hlt | heq
  · have := (roundHalfEven_bounds y₁).2
    have := (roundHalfEven_bounds y₂).1
    omega
  · unfold roundHalfEven
    rw [heq]
    have hr : y₁ - ⌊y₂⌋ ≤ y₂ - ⌊y₂⌋ := by linarith
    split_ifs <;> first | omega | (exfalso; linarith)


theorem ulp_pos (x : ℚ) : 0 < ulp x := by
  unfold ulp; positivity

theorem rnd_zero : rnd 0 = 0 := by decide!

theorem rnd_sub_le (x : ℚ) : |rnd x - x| ≤ ulp x / 2 := by
  have hU := ulp_pos x
  have h := roundHalfEven_sub_le (x / ulp x)
  have e : rnd x - x = ((roundHalfEven (x / ulp x) : ℚ) - x / ulp x) * ulp x := by
    unfold rnd; field_simp
  rw [e, abs_mul, abs_of_pos hU]
  calc |(roundHalfEven (x / ulp x) : ℚ) - x / ulp x| * ulp x ≤ 1 / 2 * ulp x := by gcongr
    _ = ulp x / 2 := by ring

theorem ulp_le (x : ℚ) (hx : x ≠ 0) : ulp x ≤ |x| / 2 ^ 52 := by
  have h := (binade_spec x hx).1
  unfold ulp
  rw [zpow_sub₀ (by norm_num)]
  have : (2 : ℚ) ^ (52 : ℤ) = 2 ^ 52 := by norm_cast
  rw [this]
  gcongr

/-- Rounding to nearest has relative error at most `2^-53`. -/
theorem rnd_rel (x : ℚ) : |rnd x - x| ≤ |x| / 2 ^ 53 := by
  by_cases hx : x = 0
  · subst hx; simp [rnd_zero]
  · calc |rnd x - x| ≤ ulp x / 2 := rnd_sub_le x
      _ ≤ |x| / 2 ^ 52 / 2 := by gcongr; exact ulp_le x hx
      _ = |x| / 2 ^ 53 := by ring

theorem scaled_bounds (x : ℚ) (hx : 0 < x) :
    (2 : ℚ) ^ 52 ≤ x / ulp x ∧ x / ulp x < (2 : ℚ) ^ 53 := by
  obtain ⟨h1, h2⟩ := binade_spec x hx.ne'
  rw [abs_of_pos hx] at h1 h2
  have hU := ulp_pos x
  have e1 : (2 : ℚ) ^ 52 * ulp x = (2 : ℚ) ^ binade x := by
    unfold ulp
    rw [zpow_sub₀ (by norm_num)]
    have : (2 : ℚ) ^ (52 : ℤ) = 2 ^ 52 := by norm_cast
    rw [this]; field_simp
  have e2 : (2 : ℚ) ^ 53 * ulp x = (2 : ℚ) ^ (binade x + 1) := by
    rw [zpow_add₀ (by norm_num), ← e1]; ring
  constructor
  · rw [le_div_iff₀ hU, e1]; exact h1
  · rw [div_lt_iff₀ hU, e2]; exact h2

theorem rnd_bounds (x : ℚ) (hx : 0 < x) :
    (2 : ℚ) ^ binade x ≤ rnd x ∧ rnd x ≤ (2 : ℚ) ^ (binade x + 1) := by
  obtain ⟨h1, h2⟩ := scaled_bounds x hx
  have hU := ulp_pos x
  have e1 : (2 : ℚ) ^ 52 * ulp x = (2 : ℚ) ^ binade x := by
    unfold ulp
    rw [zpow_sub₀ (by norm_num)]
    have : (2 : ℚ) ^ (52 : ℤ) = 2 ^ 52 := by norm_cast
    rw [this]; field_simp
  have e2 : (2 : ℚ) ^ 53 * ulp x = (2 : ℚ) ^ (binade x + 1) := by
    rw [zpow_add₀ (by norm_num), ← e1]; ring
  have r1 : ((2 ^ 52 : ℤ) : ℚ) ≤ (roundHalfEven (x / ulp x) : ℚ) := by
    have := roundHalfEven_mono (show (((2 : ℤ) ^ 52 : ℤ) : ℚ) ≤ x / ulp x by push_cast; exact h1)
    rw [roundHalfEven_intCast] at this
    exact_mod_cast this
  have r2 : (roundHalfEven (x / ulp x) : ℚ) ≤ ((2 ^ 53 : ℤ) : ℚ) := by
    have := roundHalfEven_mono (show x / ulp x ≤ (((2 : ℤ) ^ 53 : ℤ) : ℚ) by push_cast; exact h2.le)
    rw [roundHalfEven_intCast] at this
    exact_mod_cast this
  unfold rnd
  constructor
  · rw [← e1]
    have r1' : (2 : ℚ) ^ 52 ≤ (roundHalfEven (x / ulp x) : ℚ) := by
      refine le_trans (le_of_eq ?_) r1; norm_num
    gcongr
  · rw [← e2]
    have r2' : (roundHalfEven (x / ulp x) : ℚ) ≤ (2 : ℚ) ^ 53 := by
      refine le_trans r2 (le_of_eq ?_); norm_num
    gcongr

theorem rnd_nonneg {x : ℚ} (hx : 0 ≤ x) : 0 ≤ rnd x := by
  rcases hx.lt_or_eq with h | h
  · exact le_trans (by positivity) (rnd_bounds x h).1
  · rw [← h, rnd_zero]

theorem binade_mono {x y : ℚ} (hx : 0 < x) (h : x ≤ y) : binade x ≤ binade y := by
  have hy : 0 < y := lt_of_lt_of_le hx h
  have h1 := (binade_spec x hx.ne').1
  have h2 := (binade_spec y hy.ne').2
  rw [abs_of_pos hx] at h1
  rw [abs_of_pos hy] at h2
  have : (2 : ℚ) ^ binade x < (2 : ℚ) ^ (binade y + 1) := lt_of_le_of_lt (le_trans h1 h) h2
  have := (zpow_lt_zpow_iff_right₀ (by norm_num : (1 : ℚ) < 2)).mp this
  omega

/-- Rounding is monotone on the non-negative rationals. -/
theorem rnd_mono {x y : ℚ} (hx : 0 ≤ x) (h : x ≤ y) : rnd x ≤ rnd y := by
  rcases hx.lt_or_eq with hpos | h0
  · have hy : 0 < y := lt_of_lt_of_le hpos h
    rcases (binade_mono hpos h).lt_or_eq with hlt | heq
    · calc rnd x ≤ (2 : ℚ) ^ (binade x + 1) := (rnd_bounds x hpos).2
        _ ≤ (2 : ℚ) ^ binade y := zpow_le_zpow_right₀ (by norm_num) (by omega)
        _ ≤ rnd y := (rnd_bounds y hy).1
    · have hU : ulp x = ulp y := by unfold ulp; rw [heq]
      unfold rnd
      rw [hU]
      have hUy := ulp_pos y
      have : roundHalfEven (x / ulp y) ≤ roundHalfEven (y / ulp y) :=
        roundHalfEven_mono (by gcongr)
      have : (roundHalfEven (x / ulp y) : ℚ) ≤ (roundHalfEven (y / ulp y) : ℚ) := by
        exact_mod_cast this
      gcongr
  · rw [← h0, rnd_zero]; exact rnd_nonneg (h0 ▸ h)

theorem rnd_one : rnd 1 = 1 := by decide!

theorem rnd_hundred : rnd 100 = 100 := by decide!

theorem isqrtBits_spec (n : ℕ) : ∀ b r : ℕ, r ^ 2 ≤ n → n < (r + 2 ^ b) ^ 2 →
    (isqrtBits n b r) ^ 2 ≤ n ∧ n < (isqrtBits n b r + 1) ^ 2 := by
  intro b
  induction b with
  | zero => intro r h1 h2; simpa [isqrtBits] using ⟨h1, h2⟩
  | succ b ih =>
    intro r h1 h2
    unfold isqrtBits
    split_ifs with h
    · apply ih _ h
      have : r + 2 ^ b + 2 ^ b = r + 2 ^ (b + 1) := by rw [pow_succ]; ring
      rw [this]; exact h2
    · exact ih _ h1 (not_le.mp h)

theorem four_zpow (k : ℤ) : (4 : ℚ) ^ k = ((2 : ℚ) ^ k) ^ 2 := by
  rw [show (4 : ℚ) = 2 ^ (2 : ℤ) by norm_num, ← zpow_natCast, ← zpow_mul, ← zpow_mul, mul_comm]
  norm_num

/-- The rounded square root is within relative error `2^-53` of the exact one. -/
theorem sqrtRnd_spec (x : ℚ) (hx : 0 < x) :
    0 < sqrtRnd x ∧ (sqrtRnd x) ^ 2 * (1 - 1 / 2 ^ 53) ^ 2 ≤ x ∧
      x ≤ (sqrtRnd x) ^ 2 * (1 + 1 / 2 ^ 53) ^ 2 := by
  obtain ⟨hb1, hb2⟩ := binade_spec x hx.ne'
  rw [abs_of_pos hx] at hb1 hb2
  set e := binade x with he
  set k : ℤ := (e - 104) / 2 with hk
  have hk1 : 104 ≤ e - 2 * k := by omega
  have hk2 : e - 2 * k ≤ 105 := by omega
  have h4 : (0 : ℚ) < (4 : ℚ) ^ k := by positivity
  have h4e : (4 : ℚ) ^ k = (2 : ℚ) ^ (2 * k) := by
    rw [show (4 : ℚ) = 2 ^ (2 : ℤ) by norm_num, ← zpow_mul]
  set z : ℚ := x / (4 : ℚ) ^ k with hz
  have hz1 : (2 : ℚ) ^ 104 ≤ z := by
    rw [hz, le_div_iff₀ h4, h4e]
    calc (2 : ℚ) ^ 104 * 2 ^ (2 * k) = 2 ^ ((104 : ℤ) + 2 * k) := by
          rw [zpow_add₀ (by norm_num)]; norm_cast
      _ ≤ 2 ^ e := zpow_le_zpow_right₀ (by norm_num) (by omega)
      _ ≤ x := hb1
  have hz2 : z < (2 : ℚ) ^ 106 := by
    rw [hz, div_lt_iff₀ h4, h4e]
    calc x < 2 ^ (e + 1) := hb2
      _ ≤ 2 ^ ((106 : ℤ) + 2 * k) := zpow_le_zpow_right₀ (by norm_num) (by omega)
      _ = (2 : ℚ) ^ 106 * 2 ^ (2 * k) := by
          rw [zpow_add₀ (by norm_num)]; norm_cast
  have hzpos : 0 ≤ z := le_trans (by positivity) hz1
  set n : ℕ := ⌊z⌋₊ with hn
  have hn1 : (n : ℚ) ≤ z := Nat.floor_le hzpos
  have hn2 : z < (n : ℚ) + 1 := Nat.lt_floor_add_one z
  have hn3 : 2 ^ 104 ≤ n := by
    apply Nat.le_floor
    simp only [Nat.cast_pow, Nat.cast_ofNat]
    exact hz1
  have hn4 : n < 2 ^ 106 := by
    have : (n : ℚ) < ((2 ^ 106 : ℕ) : ℚ) := by
      simp only [Nat.cast_pow, Nat.cast_ofNat]
      exact lt_of_le_of_lt hn1 hz2
    exact Nat.cast_lt.mp this
  have hn5 : n < (0 + 2 ^ 53) ^ 2 := by
    have : (0 + 2 ^ 53) ^ 2 = 2 ^ 106 := by norm_num
    rw [this]; exact hn4
  obtain ⟨hm1, hm2⟩ := isqrtBits_spec n 53 0 (Nat.zero_le _) hn5
  set m : ℕ := isqrtBits n 53 0 with hm
  have hm3 : 2 ^ 52 ≤ m := by
    by_contra hlt
    push_neg at hlt
    have h1 : (m + 1) ^ 2 ≤ (2 ^ 52) ^ 2 := Nat.pow_le_pow_left hlt 2
    have h2 : (2 ^ 52) ^ 2 = 2 ^ 104 := by norm_num
    rw [h2] at h1
    exact absurd (lt_of_lt_of_le hm2 h1) (not_lt.mpr hn3)
  have hmq : (2 : ℚ) ^ 52 ≤ (m : ℚ) := by exact_mod_cast hm3
  have hzm1 : (m : ℚ) ^ 2 ≤ z := le_trans (by exact_mod_cast hm1) hn1
  have hzm2 : z < ((m : ℚ) + 1) ^ 2 := by
    have : (n : ℚ) + 1 ≤ ((m : ℚ) + 1) ^ 2 := by exact_mod_cast hm2
    linarith
  -- the rounded significand
  set mid : ℚ := ((m : ℚ) + 1 / 2) ^ 2 with hmid
  set r : ℕ := if z < mid then m else if mid < z then m + 1 else if m % 2 = 0 then m else m + 1
    with hr
  have hs : sqrtRnd x = (r : ℚ) * (2 : ℚ) ^ k := by
    unfold sqrtRnd
    rw [if_neg (not_le.mpr hx)]
  have hcases : (r = m ∧ z ≤ mid) ∨ (r = m + 1 ∧ mid ≤ z) := by
    rw [hr]
    split_ifs with c1 c2 c3
    · exact Or.inl ⟨rfl, c1.le⟩
    · exact Or.inr ⟨rfl, c2.le⟩
    · exact Or.inl ⟨rfl, not_lt.mp c2⟩
    · exact Or.inr ⟨rfl, not_lt.mp c1⟩
  have hu : (0 : ℚ) < 1 / 2 ^ 53 := by positivity
  have hu1 : (1 : ℚ) / 2 ^ 53 < 1 := by norm_num
  have key : (0 : ℚ) < r ∧ (r : ℚ) ^ 2 * (1 - 1 / 2 ^ 53) ^ 2 ≤ z ∧
      z ≤ (r : ℚ) ^ 2 * (1 + 1 / 2 ^ 53) ^ 2 := by
    have hmpos : (0 : ℚ) < m := lt_of_lt_of_le (by positivity) hmq
    have hhalf : (1 : ℚ) / 2 ≤ m * (1 / 2 ^ 53) := by
      calc (1 : ℚ) / 2 = 2 ^ 52 * (1 / 2 ^ 53) := by norm_num
        _ ≤ m * (1 / 2 ^ 53) := by gcongr
    rcases hcases with ⟨h1, h2⟩ | ⟨h1, h2⟩
    · rw [h1]
      refine ⟨hmpos, ?_, ?_⟩
      · calc (m : ℚ) ^ 2 * (1 - 1 / 2 ^ 53) ^ 2 ≤ (m : ℚ) ^ 2 * 1 ^ 2 := by
              have : (1 - 1 / 2 ^ 53 : ℚ) ^ 2 ≤ 1 ^ 2 := by
                apply pow_le_pow_left₀ <;> linarith
              gcongr
          _ = (m : ℚ) ^ 2 := by ring
          _ ≤ z := hzm1
      · calc z ≤ ((m : ℚ) + 1 / 2) ^ 2 := h2
          _ ≤ (m * (1 + 1 / 2 ^ 53)) ^ 2 := by
              gcongr; linarith
          _ = (m : ℚ) ^ 2 * (1 + 1 / 2 ^ 53) ^ 2 := by ring
    · rw [h1]
      push_cast
      refine ⟨by linarith, ?_, ?_⟩
      · calc ((m : ℚ) + 1) ^ 2 * (1 - 1 / 2 ^ 53) ^ 2 = (((m : ℚ) + 1) * (1 - 1 / 2 ^ 53)) ^ 2 := by
              ring
          _ ≤ ((m : ℚ) + 1 / 2) ^ 2 := by
              apply pow_le_pow_left₀
              · apply mul_nonneg <;> linarith
              · nlinarith
          _ ≤ z := h2
      · calc z ≤ ((m : ℚ) + 1) ^ 2 := hzm2.le
          _ = ((m : ℚ) + 1) ^ 2 * 1 ^ 2 := by ring
          _ ≤ ((m : ℚ) + 1) ^ 2 * (1 + 1 / 2 ^ 53) ^ 2 := by
              gcongr; linarith
  obtain ⟨k1, k2, k3⟩ := key
  have hxz : x = z * (4 : ℚ) ^ k := by rw [hz]; field_simp
  have h2k : (0 : ℚ) < (2 : ℚ) ^ k := by positivity
  rw [hs]
  refine ⟨by positivity, ?_, ?_⟩
  · rw [hxz, four_zpow]
    calc ((r : ℚ) * 2 ^ k) ^ 2 * (1 - 1 / 2 ^ 53) ^ 2
        = ((r : ℚ) ^ 2 * (1 - 1 / 2 ^ 53) ^ 2) * ((2 : ℚ) ^ k) ^ 2 := by ring
      _ ≤ z * ((2 : ℚ) ^ k) ^ 2 := by gcongr
  · rw [hxz, four_zpow]
    calc z * ((2 : ℚ) ^ k) ^ 2 ≤ ((r : ℚ) ^ 2 * (1 + 1 / 2 ^ 53) ^ 2) * ((2 : ℚ) ^ k) ^ 2 := by
          gcongr
      _ = ((r : ℚ) * 2 ^ k) ^ 2 * (1 + 1 / 2 ^ 53) ^ 2 := by ring

/-! ## Edit distance -/

theorem editDistance_nil_left (t : JSString) : editDistance [] t = t.length := by
  simp [editDistance]

theorem editDistance_nil_right (s : JSString) : editDistance s [] = s.length := by
  cases s <;> simp [editDistance]

theorem editDistance_cons_cons (a b : ℕ) (s t : JSString) :
    editDistance (a :: s) (b :: t) =
      min (editDistance s (b :: t) + 1)
        (min (editDistance (a :: s) t + 1) (editDistance s t + if a = b then 0 else 1)) := by
  rw [editDistance]

theorem editDistance_comm (s t : JSString) : editDistance s t = editDistance t s := by
  induction s, t using editDistance.induct with
  | case1 t => rw [editDistance_nil_left, editDistance_nil_right]
  | case2 a s => rw [editDistance_nil_left, editDistance_nil_right]
  | case3 a s b t ih1 ih2 ih3 =>
    rw [editDistance_cons_cons, editDistance_cons_cons, ih1, ih2, ih3]
    have : (if a = b then 0 else 1) = (if b = a then 0 else 1) := by
      by_cases h : a = b
      · simp [h]
      · simp [h, Ne.symm h]
    rw [this, ← min_assoc, ← min_assoc, min_comm (editDistance (b :: t) s + 1)]

theorem editDistance_self (s : JSString) : editDistance s s = 0 := by
  induction s with
  | nil => simp [editDistance]
  | cons a s ih => rw [editDistance_cons_cons, ih]; simp

theorem editDistance_le_max (s t : JSString) : editDistance s t ≤ max s.length t.length := by
  induction s, t using editDistance.induct with
  | case1 t => simp [editDistance_nil_left]
  | case2 a s => simp [editDistance_nil_right]
  | case3 a s b t ih1 ih2 ih3 =>
    rw [editDistance_cons_cons]
    have h : (editDistance s t + if a = b then 0 else 1) ≤ max s.length t.length + 1 := by
      split_ifs <;> omega
    simp only [List.length_cons]
    have : max (s.length + 1) (t.length + 1) = max s.length t.length + 1 := by omega
    rw [this]
    exact le_trans (min_le_right _ _) (le_trans (min_le_right _ _) h)

theorem rowStep_tails (a : ℕ) (s : JSString) : ∀ t : JSString,
    rowStep a t (t.tails.map (editDistance s)) = t.tails.map (editDistance (a :: s)) := by
  intro t
  induction t with
  | nil => simp [rowStep, editDistance_nil_right]
  | cons b t ih =>
    cases t with
    | nil =>
      simp [rowStep, editDistance_cons_cons, editDistance_nil_right, editDistance_nil_left]
    | cons c t =>
      simp only [List.tails, List.map_cons] at ih ⊢
      rw [rowStep, ih]
      simp only [editDistance_cons_cons a b]

/-- The recursive definition agrees with Mathlib's `levenshtein` at unit costs. -/
theorem editDistance_eq_levenshtein (s t : JSString) :
    editDistance s t = levenshtein Levenshtein.defaultCost s t := by
  induction s, t using editDistance.induct with
  | case1 t =>
    rw [editDistance_nil_left]
    induction t with
    | nil => simp
    | cons b t ih => rw [levenshtein_nil_cons, ← ih]; simp [Levenshtein.defaultCost]; omega
  | case2 a s =>
    rw [editDistance_nil_right]
    generalize a :: s = l
    induction l with
    | nil => simp
    | cons b t ih => rw [levenshtein_cons_nil, ← ih]; simp [Levenshtein.defaultCost]; omega
  | case3 a s b t ih1 ih2 ih3 =>
    rw [editDistance_cons_cons, levenshtein_cons_cons, ih1, ih2, ih3]
    simp only [Levenshtein.defaultCost]
    congr 1
    · omega
    · congr 1
      · omega
      · split_ifs <;> omega

/-- The dynamic programme computes the classic edit distance. -/
theorem levenshtein_get_eq_editDistance (str1 str2 : JSString) :
    levenshtein_get str1 str2 = editDistance str1 str2 := by
  have h : ∀ s : JSString, s.foldr (fun a row => rowStep a str2 row)
      (str2.tails.map List.length) = str2.tails.map (editDistance s) := by
    intro s
    induction s with
    | nil =>
      simp only [List.foldr_nil]
      congr 1
      funext t
      rw [editDistance_nil_left]
    | cons a s ih => rw [List.foldr_cons, ih, rowStep_tails]
  unfold levenshtein_get
  rw [h]
  cases str2 <;> simp [List.tails]

/-! ## Sets of tokens -/

/-- Adding to a set: invariant of the loop behind `newSet`. -/
theorem newSet_foldl (xs : List JSString) : ∀ acc : List JSString, acc.Nodup →
    (xs.foldl (fun set x => if x ∈ set then set else set ++ [x]) acc).Nodup ∧
      ∀ y, y ∈ xs.foldl (fun set x => if x ∈ set then set else set ++ [x]) acc ↔
        y ∈ acc ∨ y ∈ xs := by
  induction xs with
  | nil => intro acc h; simp [h]
  | cons x xs ih =>
    intro acc h
    simp only [List.foldl_cons]
    by_cases hx : x ∈ acc
    · rw [if_pos hx]
      obtain ⟨h1, h2⟩ := ih acc h
      refine ⟨h1, fun y => ?_⟩
      rw [h2]
      constructor
      · rintro (h | h)
        · exact Or.inl h
        · exact Or.inr (List.mem_cons_of_mem _ h)
      · rintro (h | h)
        · exact Or.inl h
        · rcases List.mem_cons.mp h with rfl | h
          · exact Or.inl hx
          · exact Or.inr h
    · rw [if_neg hx]
      have hn : (acc ++ [x]).Nodup := by
        rw [List.nodup_append]
        refine ⟨h, List.nodup_singleton x, ?_⟩
        intro a ha hb
        rw [List.mem_singleton] at hb
        subst hb
        exact hx ha
      obtain ⟨h1, h2⟩ := ih (acc ++ [x]) hn
      refine ⟨h1, fun y => ?_⟩
      rw [h2]
      simp only [List.mem_append, List.mem_singleton, List.mem_cons]
      tauto

theorem nodup_newSet (xs : List JSString) : (newSet xs).Nodup :=
  (newSet_foldl xs [] List.nodup_nil).1

theorem mem_newSet (xs : List JSString) (y : JSString) : y ∈ newSet xs ↔ y ∈ xs := by
  have := (newSet_foldl xs [] List.nodup_nil).2 y
  simpa using this

theorem newSet_eq_nil (xs : List JSString) : newSet xs = [] ↔ xs = [] := by
  constructor
  · intro h
    cases xs with
    | nil => rfl
    | cons x xs =>
      have : x ∈ newSet (x :: xs) := (mem_newSet _ _).2 (List.mem_cons_self _ _)
      rw [h] at this
      simp at this
  · rintro rfl; rfl

/-- Two duplicate-free lists with the same elements have the same length. -/
theorem length_eq_of_nodup {l₁ l₂ : List JSString} (h₁ : l₁.Nodup) (h₂ : l₂.Nodup)
    (h : ∀ y, y ∈ l₁ ↔ y ∈ l₂) : l₁.length = l₂.length :=
  ((List.perm_ext_iff_of_nodup h₁ h₂).2 h).length_eq

theorem length_newSet_le (xs ys : List JSString) (h : ∀ y, y ∈ xs → y ∈ ys) :
    (newSet xs).length ≤ (newSet ys).length := by
  apply List.Subperm.length_le
  apply List.subperm_of_subset (nodup_newSet xs)
  intro y hy
  exact (mem_newSet _ _).2 (h y ((mem_newSet _ _).1 hy))

/-! ## Term frequencies -/

theorem zipWith_add_zero (token : JSString) : ∀ (vocab : List JSString) (tf : List ℕ),
    token ∉ vocab → tf.length = vocab.length →
    List.zipWith (fun a v => a + if v = token then 1 else 0) tf vocab = tf := by
  intro vocab
  induction vocab with
  | nil => intro tf _ h; simp at h; simp [h]
  | cons v vs ih =>
    intro tf hn hl
    cases tf with
    | nil => simp at hl
    | cons a as =>
      simp only [List.mem_cons, not_or] at hn
      simp only [List.zipWith_cons_cons]
      rw [if_neg (Ne.symm hn.1), ih as hn.2 (by simpa using hl)]
      simp

/-- One step of `termFrequency`: the entry of the token, if it has one, is incremented. -/
theorem termFrequency_step (token : JSString) : ∀ (vocab : List JSString) (tf : List ℕ),
    vocab.Nodup → tf.length = vocab.length →
    countToken vocab tf token =
      List.zipWith (fun a v => a + if v = token then 1 else 0) tf vocab := by
  intro vocab
  induction vocab with
  | nil => intro tf _ h; simp at h; simp [h, indexOf, countToken]
  | cons v vs ih =>
    intro tf hn hl
    cases tf with
    | nil => simp at hl
    | cons a as =>
      have hl' : as.length = vs.length := by simpa using hl
      rw [List.nodup_cons] at hn
      by_cases hv : v = token
      · subst hv
        simp only [countToken, indexOf, if_true, List.set_cons_zero, List.zipWith_cons_cons]
        rw [zipWith_add_zero v vs as hn.1 hl']
        simp
      · have := ih as hn.2 hl'
        simp only [countToken, indexOf, if_neg hv, List.zipWith_cons_cons, add_zero] at this ⊢
        rw [← this]
        cases indexOf token vs <;> simp

theorem termFrequency_foldl (vocab : List JSString) (hv : vocab.Nodup) :
    ∀ (tokens : List JSString) (tf : List ℕ), tf.length = vocab.length →
    tokens.foldl (countToken vocab) tf =
      List.zipWith (fun a v => a + tokens.count v) tf vocab := by
  intro tokens
  induction tokens with
  | nil =>
    intro tf hl
    simp only [List.foldl_nil, List.count_nil, add_zero]
    apply List.ext_getElem <;> simp [hl]
  | cons token tokens ih =>
    intro tf hl
    simp only [List.foldl_cons]
    rw [termFrequency_step token vocab tf hv hl, ih _ (by simp [hl])]
    apply List.ext_getElem
    · simp
    · intro i h1 h2
      have hi : i < vocab.length := by simp at h1; omega
      simp only [List.getElem_zipWith, List.count_cons]
      by_cases h : vocab[i] = token
      · simp [h]; omega
      · have : (token == vocab[i]) = false := by simpa using Ne.symm h
        simp [h, this]

/-- The term-frequency vector lists, for each vocabulary entry, its number of
occurrences among the tokens. -/
theorem termFrequency_eq (tokens vocab : List JSString) (hv : vocab.Nodup) :
    termFrequency tokens vocab = vocab.map (fun v => tokens.count v) := by
  unfold termFrequency
  rw [termFrequency_foldl vocab hv tokens _ (by simp)]
  apply List.ext_getElem
  · simp
  · intro i h1 h2
    simp

theorem cosineSums_range (vecA vecB : List ℕ) (n : ℕ) :
    (List.range n).foldl
      (fun (acc : Sums) i =>
        { dotProduct := acc.dotProduct + vecA.getD i 0 * vecB.getD i 0
          normA := acc.normA + vecA.getD i 0 * vecA.getD i 0
          normB := acc.normB + vecB.getD i 0 * vecB.getD i 0 })
      ⟨0, 0, 0⟩ =
    ⟨((List.range n).map (fun i => vecA.getD i 0 * vecB.getD i 0)).sum,
      ((List.range n).map (fun i => vecA.getD i 0 * vecA.getD i 0)).sum,
      ((List.range n).map (fun i => vecB.getD i 0 * vecB.getD i 0)).sum⟩ := by
  induction n with
  | zero => simp
  | succ n ih =>
    rw [List.range_succ, List.foldl_append, ih]
    simp

theorem map_range_getD (vocab : List JSString) (f g : JSString → ℕ) :
    (List.range (vocab.map f).length).map
      (fun i => (vocab.map f).getD i 0 * (vocab.map g).getD i 0) =
    vocab.map (fun v => f v * g v) := by
  apply List.ext_getElem
  · simp
  · intro i h1 h2
    have hi : i < vocab.length := by simpa using h2
    simp [List.getD_eq_getElem?_getD, hi]

/-- The three sums of `cosineSimilarity2` over two vectors indexed by the same vocabulary. -/
theorem cosineSums_map (vocab : List JSString) (f g : JSString → ℕ) :
    cosineSums (vocab.map f) (vocab.map g) =
      ⟨(vocab.map (fun v => f v * g v)).sum, (vocab.map (fun v => f v * f v)).sum,
        (vocab.map (fun v => g v * g v)).sum⟩ := by
  unfold cosineSums
  rw [cosineSums_range]
  have h1 := map_range_getD vocab f g
  have h2 := map_range_getD vocab f f
  have h3 := map_range_getD vocab g g
  have hl : (vocab.map g).length = (vocab.map f).length := by simp
  rw [hl] at h3
  rw [h1, h2, h3]

theorem tokenSums_eq (tokens1 tokens2 : List JSString) :
    tokenSums tokens1 tokens2 =
      ⟨((newSet (tokens1 ++ tokens2)).map (fun v => tokens1.count v * tokens2.count v)).sum,
        ((newSet (tokens1 ++ tokens2)).map (fun v => tokens1.count v * tokens1.count v)).sum,
        ((newSet (tokens1 ++ tokens2)).map (fun v => tokens2.count v * tokens2.count v)).sum⟩ := by
  unfold tokenSums
  rw [termFrequency_eq _ _ (nodup_newSet _), termFrequency_eq _ _ (nodup_newSet _),
    cosineSums_map]

/-- Cauchy-Schwarz for the accumulators: `dotProduct² ≤ normA * normB`. -/
theorem tokenSums_cauchy (tokens1 tokens2 : List JSString) :
    (tokenSums tokens1 tokens2).dotProduct ^ 2 ≤
      (tokenSums tokens1 tokens2).normA * (tokenSums tokens1 tokens2).normB := by
  rw [tokenSums_eq]
  simp only
  have hn := nodup_newSet (tokens1 ++ tokens2)
  rw [← List.sum_toFinset _ hn, ← List.sum_toFinset _ hn, ← List.sum_toFinset _ hn]
  have := Finset.sum_mul_sq_le_sq_mul_sq (newSet (tokens1 ++ tokens2)).toFinset
    (fun v => tokens1.count v) (fun v => tokens2.count v)
  simpa [sq] using this

theorem sum_sq_count_eq_zero (vocab tokens : List JSString) (h : ∀ t, t ∈ tokens → t ∈ vocab) :
    (vocab.map (fun v => tokens.count v * tokens.count v)).sum = 0 ↔ tokens = [] := by
  constructor
  · intro h0
    cases tokens with
    | nil => rfl
    | cons t ts =>
      exfalso
      rw [List.sum_eq_zero_iff] at h0
      have ht := h t (List.mem_cons_self _ _)
      have := h0 _ (List.mem_map.2 ⟨t, ht, rfl⟩)
      have hc : 0 < List.count t (t :: ts) := List.count_pos_iff.2 (List.mem_cons_self _ _)
      rcases Nat.mul_eq_zero.1 this with h | h <;> omega
  · rintro rfl
    simp

theorem tokenSums_normA_eq_zero (tokens1 tokens2 : List JSString) :
    (tokenSums tokens1 tokens2).normA = 0 ↔ tokens1 = [] := by
  rw [tokenSums_eq]
  apply sum_sq_count_eq_zero
  intro t ht
  exact (mem_newSet _ _).2 (List.mem_append_left _ ht)

theorem tokenSums_normB_eq_zero (tokens1 tokens2 : List JSString) :
    (tokenSums tokens1 tokens2).normB = 0 ↔ tokens2 = [] := by
  rw [tokenSums_eq]
  apply sum_sq_count_eq_zero
  intro t ht
  exact (mem_newSet _ _).2 (List.mem_append_right _ ht)

/-- Exchanging the two token lists exchanges the two norms and keeps the dot product. -/
theorem tokenSums_swap (tokens1 tokens2 : List JSString) :
    tokenSums tokens2 tokens1 =
      ⟨(tokenSums tokens1 tokens2).dotProduct, (tokenSums tokens1 tokens2).normB,
        (tokenSums tokens1 tokens2).normA⟩ := by
  rw [tokenSums_eq, tokenSums_eq]
  have hp : (newSet (tokens2 ++ tokens1)).Perm (newSet (tokens1 ++ tokens2)) := by
    rw [List.perm_ext_iff_of_nodup (nodup_newSet _) (nodup_newSet _)]
    intro y
    rw [mem_newSet, mem_newSet, List.mem_append, List.mem_append, or_comm]
  simp only [Sums.mk.injEq]
  refine ⟨?_, ?_, ?_⟩
  · rw [(hp.map _).sum_eq]
    congr 1
    apply List.map_congr_left
    intro v _
    exact mul_comm _ _
  · exact (hp.map _).sum_eq
  · exact (hp.map _).sum_eq

theorem tokenSums_self (tokens : List JSString) :
    (tokenSums tokens tokens).dotProduct = (tokenSums tokens tokens).normA ∧
      (tokenSums tokens tokens).normB = (tokenSums tokens tokens).normA := by
  rw [tokenSums_eq]
  exact ⟨rfl, rfl⟩

/-! ## Rounding error of the cosine expression -/

theorem rnd_le_mul {x : ℚ} (hx : 0 ≤ x) : rnd x ≤ x * (1 + 1 / 2 ^ 53) := by
  have h := rnd_rel x
  rw [abs_of_nonneg hx, abs_le] at h
  have : x * (1 + 1 / 2 ^ 53) = x + x / 2 ^ 53 := by ring
  rw [this]; linarith [h.2]

theorem mul_le_rnd {x : ℚ} (hx : 0 ≤ x) : x * (1 - 1 / 2 ^ 53) ≤ rnd x := by
  have h := rnd_rel x
  rw [abs_of_nonneg hx, abs_le] at h
  have : x * (1 - 1 / 2 ^ 53) = x - x / 2 ^ 53 := by ring
  rw [this]; linarith [h.1]

/-- Rounding error of the expression `dotProduct / (Math.sqrt(normA) * Math.sqrt(normB)) * 100`:
by Cauchy-Schwarz the exact value is at most 100, and five roundings add at most `10^-13`. -/
theorem cosine_upper (d nA nB : ℕ) (hA : 0 < nA) (hB : 0 < nB) (hd : d ^ 2 ≤ nA * nB) :
    0 ≤ rnd (rnd ((d : ℚ) / rnd (sqrtRnd nA * sqrtRnd nB)) * 100) ∧
      rnd (rnd ((d : ℚ) / rnd (sqrtRnd nA * sqrtRnd nB)) * 100) ≤ 100 + 1 / 10 ^ 13 := by
  obtain ⟨a0, a1, a2⟩ := sqrtRnd_spec nA (by exact_mod_cast hA)
  obtain ⟨b0, b1, b2⟩ := sqrtRnd_spec nB (by exact_mod_cast hB)
  set sA := sqrtRnd nA
  set sB := sqrtRnd nB
  set u : ℚ := 1 / 2 ^ 53 with hu
  have hu0 : 0 < u := by rw [hu]; positivity
  have hu1 : u < 1 := by rw [hu]; norm_num
  have hS : 0 < sA * sB := mul_pos a0 b0
  set P := rnd (sA * sB)
  have hP1 : sA * sB * (1 - u) ≤ P := mul_le_rnd hS.le
  have hPpos : 0 < P := lt_of_lt_of_le (mul_pos hS (by linarith)) hP1
  have hdq : ((d : ℚ)) ^ 2 ≤ (nA : ℚ) * nB := by exact_mod_cast hd
  have hd1 : (d : ℚ) ≤ sA * sB * (1 + u) ^ 2 := by
    have h0 : (0 : ℚ) ≤ sA * sB * (1 + u) ^ 2 := by positivity
    have : ((d : ℚ)) ^ 2 ≤ (sA * sB * (1 + u) ^ 2) ^ 2 := by
      calc ((d : ℚ)) ^ 2 ≤ (nA : ℚ) * nB := hdq
        _ ≤ (sA ^ 2 * (1 + u) ^ 2) * (sB ^ 2 * (1 + u) ^ 2) := by gcongr
        _ = (sA * sB * (1 + u) ^ 2) ^ 2 := by ring
    exact (pow_le_pow_iff_left₀ (by positivity) h0 (by norm_num)).1 this
  have hx0 : 0 ≤ (d : ℚ) / P := by positivity
  have hx1 : (d : ℚ) / P ≤ (1 + u) ^ 2 / (1 - u) := by
    rw [div_le_div_iff₀ hPpos (by linarith)]
    calc (d : ℚ) * (1 - u) ≤ sA * sB * (1 + u) ^ 2 * (1 - u) := by
          gcongr
      _ = (1 + u) ^ 2 * (sA * sB * (1 - u)) := by ring
      _ ≤ (1 + u) ^ 2 * P := by gcongr
  set Q := rnd ((d : ℚ) / P)
  have hQ0 : 0 ≤ Q := rnd_nonneg hx0
  have hQ1 : Q ≤ (1 + u) ^ 2 / (1 - u) * (1 + u) :=
    le_trans (rnd_le_mul hx0) (by gcongr)
  have hR0 : 0 ≤ Q * 100 := by positivity
  refine ⟨rnd_nonneg hR0, ?_⟩
  calc rnd (Q * 100) ≤ Q * 100 * (1 + u) := rnd_le_mul hR0
    _ ≤ (1 + u) ^ 2 / (1 - u) * (1 + u) * 100 * (1 + u) := by gcongr
    _ ≤ 100 + 1 / 10 ^ 13 := by rw [hu]; norm_num

/-- Rounding error of the same expression when the three sums coincide: the exact
value is 100 and the result is within `10^-13` of it. -/
theorem cosine_self_lower (n : ℕ) (hn : 0 < n) :
    100 - 1 / 10 ^ 13 ≤ rnd (rnd ((n : ℚ) / rnd (sqrtRnd n * sqrtRnd n)) * 100) := by
  obtain ⟨a0, a1, a2⟩ := sqrtRnd_spec n (by exact_mod_cast hn)
  set s := sqrtRnd n
  set u : ℚ := 1 / 2 ^ 53 with hu
  have hu0 : 0 < u := by rw [hu]; positivity
  have hu1 : u < 1 := by rw [hu]; norm_num
  have hS : 0 < s * s := mul_pos a0 a0
  set P := rnd (s * s)
  have hP1 : s * s * (1 - u) ≤ P := mul_le_rnd hS.le
  have hP2 : P ≤ s * s * (1 + u) := rnd_le_mul hS.le
  have hPpos : 0 < P := lt_of_lt_of_le (mul_pos hS (by linarith)) hP1
  have hx0 : 0 ≤ (n : ℚ) / P := by positivity
  have hx1 : (1 - u) ^ 2 / (1 + u) ≤ (n : ℚ) / P := by
    rw [div_le_div_iff₀ (by linarith) hPpos]
    calc (1 - u) ^ 2 * P ≤ (1 - u) ^ 2 * (s * s * (1 + u)) := by gcongr
      _ = s ^ 2 * (1 - u) ^ 2 * (1 + u) := by ring
      _ ≤ (n : ℚ) * (1 + u) := by gcongr
  set Q := rnd ((n : ℚ) / P)
  have hQ0 : 0 ≤ Q := rnd_nonneg hx0
  have hQ1 : (1 - u) ^ 2 / (1 + u) * (1 - u) ≤ Q :=
    le_trans (by gcongr) (mul_le_rnd hx0)
  have hR0 : 0 ≤ Q * 100 := by positivity
  calc (100 : ℚ) - 1 / 10 ^ 13 ≤ (1 - u) ^ 2 / (1 + u) * (1 - u) * 100 * (1 - u) := by
        rw [hu]; norm_num
    _ ≤ Q * 100 * (1 - u) := by gcongr
    _ ≤ rnd (Q * 100) := mul_le_rnd hR0

/-! ## Percentages -/

theorem percent_range {x : ℚ} (h0 : 0 ≤ x) (h1 : x ≤ 1) :
    0 ≤ rnd (rnd x * 100) ∧ rnd (rnd x * 100) ≤ 100 := by
  have a0 : 0 ≤ rnd x := rnd_nonneg h0
  have a1 : rnd x ≤ 1 := by simpa [rnd_one] using rnd_mono h0 h1
  refine ⟨rnd_nonneg (by positivity), ?_⟩
  have : rnd (rnd x * 100) ≤ rnd 100 := rnd_mono (by positivity) (by linarith)
  simpa [rnd_hundred] using this

theorem percent_one : rnd (rnd 1 * 100) = 100 := by
  rw [rnd_one, one_mul, rnd_hundred]

theorem percent_close {x : ℚ} (h0 : 0 ≤ x) (h1 : x ≤ 1) :
    |rnd (rnd x * 100) - x * 100| ≤ 1 / 10 ^ 13 := by
  have a0 : 0 ≤ rnd x := rnd_nonneg h0
  have a1 : rnd x ≤ 1 := by simpa [rnd_one] using rnd_mono h0 h1
  have e1 := rnd_rel x
  have e2 := rnd_rel (rnd x * 100)
  rw [abs_of_nonneg h0] at e1
  rw [abs_of_nonneg (by positivity : (0 : ℚ) ≤ rnd x * 100)] at e2
  have b1 : x / 2 ^ 53 ≤ 1 / 2 ^ 53 := by gcongr
  have b2 : rnd x * 100 / 2 ^ 53 ≤ 1 * 100 / 2 ^ 53 := by gcongr
  rw [abs_le] at e1 e2 ⊢
  have c : (1 : ℚ) / 2 ^ 53 * 100 + 1 * 100 / 2 ^ 53 ≤ 1 / 10 ^ 13 := by norm_num
  constructor <;> nlinarith [e1.1, e1.2, e2.1, e2.2]

/-- The value of `levenshteinSimilarity` on two strings that are not both empty. -/
theorem levenshteinSimilarity_eq (a b : JSString) (hL : 0 < max a.length b.length) :
    levenshteinSimilarity a b =
      JSNumber.fin (rnd (rnd (((max a.length b.length : ℕ) - (editDistance a b : ℕ) : ℚ) /
        (max a.length b.length : ℕ)) * 100)) := by
  have hne : ((max a.length b.length : ℕ) : ℚ) ≠ 0 := by exact_mod_cast hL.ne'
  unfold levenshteinSimilarity
  simp only [JSNumber.ofNat, JSNumber.div, JSNumber.mul, if_neg hne,
    levenshtein_get_eq_editDistance]
  norm_num

theorem levenshtein_ratio_range (a b : JSString) (hL : 0 < max a.length b.length) :
    0 ≤ (((max a.length b.length : ℕ) - (editDistance a b : ℕ) : ℚ) / (max a.length b.length : ℕ))
      ∧ (((max a.length b.length : ℕ) - (editDistance a b : ℕ) : ℚ) /
        (max a.length b.length : ℕ)) ≤ 1 := by
  have hpos : (0 : ℚ) < (max a.length b.length : ℕ) := by exact_mod_cast hL
  have hd : ((editDistance a b : ℕ) : ℚ) ≤ (max a.length b.length : ℕ) := by
    exact_mod_cast editDistance_le_max a b
  have hd0 : (0 : ℚ) ≤ (editDistance a b : ℕ) := by positivity
  constructor
  · apply div_nonneg <;> linarith
  · rw [div_le_one hpos]; linarith

/-! ## Values of the metrics -/

/-- The value of `jaccardSimilarity` in terms of the sizes of the two sets it builds. -/
theorem jaccardSimilarity_eq (h : Host) (a b : JSString)
    (hU : 0 < (newSet (tokenize h a ++ tokenize h b)).length) :
    jaccardSimilarity h a b =
      JSNumber.fin (rnd (rnd (((newSet ((tokenize h a).filter
        (fun token => decide (token ∈ tokenize h b)))).length : ℚ) /
          ((newSet (tokenize h a ++ tokenize h b)).length : ℚ)) * 100)) := by
  have hne : (((newSet (tokenize h a ++ tokenize h b)).length : ℕ) : ℚ) ≠ 0 := by
    exact_mod_cast hU.ne'
  unfold jaccardSimilarity
  simp only [JSNumber.ofNat, JSNumber.div, JSNumber.mul, if_neg hne]
  norm_num

theorem jaccard_inter_le (t₁ t₂ : List JSString) :
    (newSet (t₁.filter (fun token => decide (token ∈ t₂)))).length ≤
      (newSet (t₁ ++ t₂)).length := by
  apply length_newSet_le
  intro y hy
  exact List.mem_append_left _ (List.mem_filter.1 hy).1

theorem jaccard_inter_comm (t₁ t₂ : List JSString) :
    (newSet (t₁.filter (fun token => decide (token ∈ t₂)))).length =
      (newSet (t₂.filter (fun token => decide (token ∈ t₁)))).length := by
  apply length_eq_of_nodup (nodup_newSet _) (nodup_newSet _)
  intro y
  simp only [mem_newSet, List.mem_filter, decide_eq_true_eq]
  tauto

theorem jaccard_union_comm (t₁ t₂ : List JSString) :
    (newSet (t₁ ++ t₂)).length = (newSet (t₂ ++ t₁)).length := by
  apply length_eq_of_nodup (nodup_newSet _) (nodup_newSet _)
  intro y
  simp only [mem_newSet, List.mem_append]
  tauto

theorem jaccard_inter_self (t : List JSString) :
    (newSet (t.filter (fun token => decide (token ∈ t)))).length = (newSet (t ++ t)).length := by
  apply length_eq_of_nodup (nodup_newSet _) (nodup_newSet _)
  intro y
  simp only [mem_newSet, List.mem_filter, decide_eq_true_eq, List.mem_append]
  tauto

theorem jaccardSimilarity_comm (h : Host) (a b : JSString) :
    jaccardSimilarity h a b = jaccardSimilarity h b a := by
  unfold jaccardSimilarity
  simp only
  rw [jaccard_inter_comm, jaccard_union_comm]

/-- The value of `cosineSimilarity` in terms of the accumulators of its loop. -/
theorem cosineSimilarity_eq (h : Host) (a b : JSString) :
    cosineSimilarity h a b =
      (if (tokenSums (wordTokenize h (h.toLowerCase a)) (wordTokenize h (h.toLowerCase b))).normA = 0
          ∨ (tokenSums (wordTokenize h (h.toLowerCase a))
            (wordTokenize h (h.toLowerCase b))).normB = 0
        then JSNumber.ofNat 0
        else
          (JSNumber.ofNat (tokenSums (wordTokenize h (h.toLowerCase a))
              (wordTokenize h (h.toLowerCase b))).dotProduct).div
            ((JSNumber.ofNat (tokenSums (wordTokenize h (h.toLowerCase a))
              (wordTokenize h (h.toLowerCase b))).normA).sqrt.mul
              (JSNumber.ofNat (tokenSums (wordTokenize h (h.toLowerCase a))
              (wordTokenize h (h.toLowerCase b))).normB).sqrt)).mul
        (JSNumber.ofNat 100) := rfl

/-- The quotient of `cosineSimilarity2` times 100 when both norms are positive. -/
theorem cosine_value (d nA nB : ℕ) (hA : 0 < nA) (hB : 0 < nB) :
    ((JSNumber.ofNat d).div ((JSNumber.ofNat nA).sqrt.mul (JSNumber.ofNat nB).sqrt)).mul
        (JSNumber.ofNat 100) =
      JSNumber.fin (rnd (rnd ((d : ℚ) / rnd (sqrtRnd nA * sqrtRnd nB)) * 100)) := by
  obtain ⟨a0, -, -⟩ := sqrtRnd_spec nA (by exact_mod_cast hA)
  obtain ⟨b0, -, -⟩ := sqrtRnd_spec nB (by exact_mod_cast hB)
  have hP : rnd (sqrtRnd nA * sqrtRnd nB) ≠ 0 := by
    have h1 := mul_le_rnd (mul_pos a0 b0).le
    have : 0 < sqrtRnd nA * sqrtRnd nB * (1 - 1 / 2 ^ 53) :=
      mul_pos (mul_pos a0 b0) (by norm_num)
    exact (lt_of_lt_of_le this h1).ne'
  have nA0 : ¬ ((nA : ℚ) < 0) := not_lt.mpr (by positivity)
  have nB0 : ¬ ((nB : ℚ) < 0) := not_lt.mpr (by positivity)
  simp only [JSNumber.ofNat, JSNumber.sqrt, JSNumber.div, JSNumber.mul, if_neg nA0, if_neg nB0,
    if_neg hP]
  norm_num

theorem cosineSimilarity_comm (h : Host) (a b : JSString) :
    cosineSimilarity h a b = cosineSimilarity h b a := by
  rw [cosineSimilarity_eq, cosineSimilarity_eq,
    tokenSums_swap (wordTokenize h (h.toLowerCase a)) (wordTokenize h (h.toLowerCase b))]
  simp only
  set s := tokenSums (wordTokenize h (h.toLowerCase a)) (wordTokenize h (h.toLowerCase b))
  by_cases hz : s.normA = 0 ∨ s.normB = 0
  · rw [if_pos hz, if_pos (Or.symm hz)]
  · rw [if_neg hz, if_neg (fun h' => hz (Or.symm h'))]
    push_neg at hz
    rw [cosine_value _ _ _ (Nat.pos_of_ne_zero hz.1) (Nat.pos_of_ne_zero hz.2),
      cosine_value _ _ _ (Nat.pos_of_ne_zero hz.2) (Nat.pos_of_ne_zero hz.1),
      mul_comm (sqrtRnd _) (sqrtRnd _)]

theorem levenshteinSimilarity_comm (a b : JSString) :
    levenshteinSimilarity a b = levenshteinSimilarity b a := by
  unfold levenshteinSimilarity
  simp only [levenshtein_get_eq_editDistance, editDistance_comm a b, max_comm a.length b.length]

/-! ## Range, identity and the zero guard -/

theorem wordTokenize_nil (h : Host) : wordTokenize h [] = [] := by
  simp [wordTokenize, splitNonEmpty, List.splitOnP, List.splitOnP.go]

theorem cosineSimilarity_of_no_tokens (h : Host) (a b : JSString)
    (hz : wordTokenize h (h.toLowerCase a) = [] ∨ wordTokenize h (h.toLowerCase b) = []) :
    cosineSimilarity h a b = JSNumber.fin 0 := by
  rw [cosineSimilarity_eq]
  have : (tokenSums (wordTokenize h (h.toLowerCase a))
      (wordTokenize h (h.toLowerCase b))).normA = 0 ∨
      (tokenSums (wordTokenize h (h.toLowerCase a))
        (wordTokenize h (h.toLowerCase b))).normB = 0 := by
    rcases hz with hz | hz
    · exact Or.inl ((tokenSums_normA_eq_zero _ _).2 hz)
    · exact Or.inr ((tokenSums_normB_eq_zero _ _).2 hz)
  rw [if_pos this]
  simp [JSNumber.ofNat, JSNumber.mul, rnd_zero]

/-- The value of `cosineSimilarity` when both texts have tokens. -/
theorem cosineSimilarity_of_tokens (h : Host) (a b : JSString)
    (ha : wordTokenize h (h.toLowerCase a) ≠ []) (hb : wordTokenize h (h.toLowerCase b) ≠ []) :
    0 < (tokenSums (wordTokenize h (h.toLowerCase a))
      (wordTokenize h (h.toLowerCase b))).normA ∧
    0 < (tokenSums (wordTokenize h (h.toLowerCase a))
      (wordTokenize h (h.toLowerCase b))).normB ∧
    cosineSimilarity h a b =
      JSNumber.fin (rnd (rnd (((tokenSums (wordTokenize h (h.toLowerCase a))
        (wordTokenize h (h.toLowerCase b))).dotProduct : ℚ) /
        rnd (sqrtRnd (tokenSums (wordTokenize h (h.toLowerCase a))
          (wordTokenize h (h.toLowerCase b))).normA *
          sqrtRnd (tokenSums (wordTokenize h (h.toLowerCase a))
          (wordTokenize h (h.toLowerCase b))).normB)) * 100)) := by
  have hA := Nat.pos_of_ne_zero (mt (tokenSums_normA_eq_zero _ (wordTokenize h (h.toLowerCase b))).1 ha)
  have hB := Nat.pos_of_ne_zero (mt (tokenSums_normB_eq_zero (wordTokenize h (h.toLowerCase a)) _).1 hb)
  refine ⟨hA, hB, ?_⟩
  rw [cosineSimilarity_eq, if_neg (by omega), cosine_value _ _ _ hA hB]

theorem cosineSimilarity_range (h : Host) (a b : JSString) :
    ∃ q, cosineSimilarity h a b = JSNumber.fin q ∧ 0 ≤ q ∧ q ≤ 100 + 1 / 10 ^ 13 := by
  by_cases ha : wordTokenize h (h.toLowerCase a) = []
  · exact ⟨0, cosineSimilarity_of_no_tokens h a b (Or.inl ha), le_rfl, by norm_num⟩
  by_cases hb : wordTokenize h (h.toLowerCase b) = []
  · exact ⟨0, cosineSimilarity_of_no_tokens h a b (Or.inr hb), le_rfl, by norm_num⟩
  obtain ⟨hA, hB, hv⟩ := cosineSimilarity_of_tokens h a b ha hb
  exact ⟨_, hv, cosine_upper _ _ _ hA hB (tokenSums_cauchy _ _)⟩

theorem cosineSimilarity_self (h : Host) (a : JSString)
    (ha : wordTokenize h (h.toLowerCase a) ≠ []) :
    ∃ q, cosineSimilarity h a a = JSNumber.fin q ∧ |q - 100| ≤ 1 / 10 ^ 13 := by
  obtain ⟨hA, hB, hv⟩ := cosineSimilarity_of_tokens h a a ha ha
  obtain ⟨e1, e2⟩ := tokenSums_self (wordTokenize h (h.toLowerCase a))
  rw [e1, e2] at hv
  refine ⟨_, hv, ?_⟩
  have up := (cosine_upper _ _ _ hA hA (by rw [sq])).2
  have lo := cosine_self_lower _ hA
  rw [abs_le]
  constructor <;> linarith

theorem jaccard_union_pos (t₁ t₂ : List JSString) (ht : t₁ ≠ [] ∨ t₂ ≠ []) :
    0 < (newSet (t₁ ++ t₂)).length := by
  apply List.length_pos.2
  intro hn
  rw [newSet_eq_nil, List.append_eq_nil] at hn
  rcases ht with ht | ht
  · exact ht hn.1
  · exact ht hn.2

theorem jaccardSimilarity_range (h : Host) (a b : JSString)
    (ht : tokenize h a ≠ [] ∨ tokenize h b ≠ []) :
    ∃ q, jaccardSimilarity h a b = JSNumber.fin q ∧ 0 ≤ q ∧ q ≤ 100 := by
  have hU := jaccard_union_pos _ _ ht
  refine ⟨_, jaccardSimilarity_eq h a b hU, ?_⟩
  apply percent_range
  · positivity
  · rw [div_le_one (by exact_mod_cast hU)]
    exact_mod_cast jaccard_inter_le _ _

theorem jaccardSimilarity_self (h : Host) (a : JSString) (ht : tokenize h a ≠ []) :
    jaccardSimilarity h a a = JSNumber.fin 100 := by
  have hU := jaccard_union_pos (tokenize h a) (tokenize h a) (Or.inl ht)
  rw [jaccardSimilarity_eq h a a hU, jaccard_inter_self, div_self (by exact_mod_cast hU.ne'),
    percent_one]

theorem jaccardSimilarity_of_no_tokens (h : Host) (a b : JSString)
    (ha : tokenize h a = []) (hb : tokenize h b = []) :
    jaccardSimilarity h a b = JSNumber.nan := by
  unfold jaccardSimilarity
  simp only [ha, hb]
  rfl

theorem levenshteinSimilarity_range (a b : JSString) (hab : a ≠ [] ∨ b ≠ []) :
    ∃ q, levenshteinSimilarity a b = JSNumber.fin q ∧ 0 ≤ q ∧ q ≤ 100 := by
  have hL : 0 < max a.length b.length := by
    rcases hab with h | h
    · exact lt_of_lt_of_le (List.length_pos.2 h) (le_max_left _ _)
    · exact lt_of_lt_of_le (List.length_pos.2 h) (le_max_right _ _)
  obtain ⟨r0, r1⟩ := levenshtein_ratio_range a b hL
  exact ⟨_, levenshteinSimilarity_eq a b hL, percent_range r0 r1⟩

theorem levenshteinSimilarity_self (a : JSString) (ha : a ≠ []) :
    levenshteinSimilarity a a = JSNumber.fin 100 := by
  have hL : 0 < max a.length a.length := by simpa using List.length_pos.2 ha
  rw [levenshteinSimilarity_eq a a hL, editDistance_self]
  have : (((max a.length a.length : ℕ) : ℚ) - ((0 : ℕ) : ℚ)) / ((max a.length a.length : ℕ) : ℚ)
      = 1 := by
    rw [Nat.cast_zero, sub_zero, div_self (by exact_mod_cast hL.ne')]
  rw [this, percent_one]

/-! ## The scan of the pattern -/

theorem splitAtBlankLine_length : ∀ (s body rest : JSString),
    splitAtBlankLine s = some (body, rest) → rest.length < s.length := by
  intro s
  induction s with
  | nil => intro body rest h; simp [splitAtBlankLine] at h
  | cons c t ih =>
    intro body rest h
    unfold splitAtBlankLine at h
    split_ifs at h with hc
    · simp only [Option.some.injEq, Prod.mk.injEq] at h
      rw [← h.2]
      cases t with
      | nil => simp at hc
      | cons d t => simp; omega
    · cases hs : splitAtBlankLine t with
      | none => simp [hs] at h
      | some p =>
        simp only [hs, Option.map_some', Option.some.injEq, Prod.mk.injEq] at h
        have := ih p.1 p.2 (by simp [hs])
        rw [← h.2]
        simp only [List.length_cons]
        omega

theorem matchAt_length (s digits body rest : JSString)
    (h : matchAt s = some (digits, body, rest)) : rest.length < s.length := by
  unfold matchAt at h
  simp only at h
  split_ifs at h with h1
  have hd : (s.dropWhile isDigit).length ≤ s.length := (List.dropWhile_sublist _).length_le
  split at h
  · rename_i c₁ c₂ r heq
    split_ifs at h with h2
    cases hs : splitAtBlankLine r with
    | none => simp [hs] at h
    | some p =>
      simp only [hs, Option.map_some', Option.some.injEq, Prod.mk.injEq] at h
      have := splitAtBlankLine_length r p.1 p.2 (by simp [hs])
      rw [heq] at hd
      simp only [List.length_cons] at hd
      rw [← h.2.2]
      omega
  · simp at h

/-- The result of the scan does not depend on the fuel once it covers the text. -/
theorem matchAllFuel_congr : ∀ (n fuel₁ fuel₂ : ℕ) (s : JSString),
    s.length ≤ n → n ≤ fuel₁ → n ≤ fuel₂ → matchAllFuel fuel₁ s = matchAllFuel fuel₂ s := by
  intro n
  induction n with
  | zero =>
    intro f₁ f₂ s hs _ _
    have : s = [] := List.length_eq_zero.1 (by omega)
    subst this
    cases f₁ <;> cases f₂ <;> simp [matchAllFuel]
  | succ n ih =>
    intro f₁ f₂ s hs h₁ h₂
    cases s with
    | nil => cases f₁ <;> cases f₂ <;> simp [matchAllFuel]
    | cons c t =>
      obtain ⟨g₁, rfl⟩ : ∃ g, f₁ = g + 1 := ⟨f₁ - 1, by omega⟩
      obtain ⟨g₂, rfl⟩ : ∃ g, f₂ = g + 1 := ⟨f₂ - 1, by omega⟩
      simp only [matchAllFuel]
      cases hm : matchAt (c :: t) with
      | none =>
        simp only
        exact ih g₁ g₂ t (by simpa using hs) (by omega) (by omega)
      | some p =>
        obtain ⟨digits, body, rest⟩ := p
        simp only
        have := matchAt_length _ _ _ _ hm
        rw [ih g₁ g₂ rest (by simp only [List.length_cons] at this hs; omega) (by omega) (by omega)]

theorem matchAll_nil : matchAll [] = [] := rfl

/-- The scan, one start position at a time. -/
theorem matchAll_cons (c : ℕ) (t : JSString) :
    matchAll (c :: t) =
      match matchAt (c :: t) with
      | some (digits, body, rest) => (digits, body) :: matchAll rest
      | none => matchAll t := by
  unfold matchAll
  simp only [List.length_cons, matchAllFuel]
  cases hm : matchAt (c :: t) with
  | none => rfl
  | some p =>
    obtain ⟨digits, body, rest⟩ := p
    simp only
    have := matchAt_length _ _ _ _ hm
    rw [matchAllFuel_congr rest.length t.length rest.length rest le_rfl
      (by simp only [List.length_cons] at this; omega) le_rfl]

/-! ## Matching one block -/

theorem trim_append_lf (s : JSString) : trim (s ++ [10]) = trim s := by
  unfold trim
  rw [List.rdropWhile_concat_pos _ _ _ (by decide)]

theorem NoBlankLine.tail {c : ℕ} {b : JSString} (h : NoBlankLine (c :: b)) : NoBlankLine b :=
  fun hb => h (hb.trans (List.suffix_cons c b).isInfix)

theorem NoBlankLine.head {b : JSString} (h : NoBlankLine (10 :: b)) : b.head? ≠ some 10 := by
  intro hb
  cases b with
  | nil => simp at hb
  | cons d b =>
    simp only [List.head?_cons, Option.some.injEq] at hb
    subst hb
    exact h (List.prefix_append [10, 10] b).isInfix

/-- The lazy group stops at the first blank line after a body without one: either
right after the body, or one character earlier when the body ends in a line feed. -/
theorem splitAtBlankLine_append (rest : JSString) : ∀ b : JSString, NoBlankLine b →
    ∃ body r, splitAtBlankLine (b ++ 10 :: 10 :: rest) = some (body, r) ∧
      ((body = b ∧ r = rest) ∨ (b = body ++ [10] ∧ r = 10 :: rest)) := by
  intro b
  induction b with
  | nil =>
    intro _
    exact ⟨[], rest, by simp [splitAtBlankLine], Or.inl ⟨rfl, rfl⟩⟩
  | cons c b ih =>
    intro hb
    by_cases hc : c = 10 ∧ (b ++ 10 :: 10 :: rest).head? = some 10
    · obtain ⟨rfl, hh⟩ := hc
      have hb' : b = [] := by
        cases b with
        | nil => rfl
        | cons d b =>
          exfalso
          simp only [List.cons_append, List.head?_cons, Option.some.injEq] at hh
          subst hh
          exact hb (List.prefix_append [10, 10] b).isInfix
      subst hb'
      exact ⟨[], 10 :: rest, by simp [splitAtBlankLine], Or.inr ⟨rfl, rfl⟩⟩
    · obtain ⟨body, r, h1, h2⟩ := ih hb.tail
      refine ⟨c :: body, r, ?_, ?_⟩
      · rw [List.cons_append, splitAtBlankLine, if_neg hc, h1]
        rfl
      · rcases h2 with ⟨e1, e2⟩ | ⟨e1, e2⟩
        · exact Or.inl ⟨by rw [e1], e2⟩
        · exact Or.inr ⟨by rw [e1]; rfl, e2⟩

theorem takeWhile_numeral (k : JSString) (hk : ∀ c ∈ k, isDigit c = true) (x : ℕ)
    (hx : isDigit x = false) (t : JSString) :
    (k ++ x :: t).takeWhile isDigit = k ∧ (k ++ x :: t).dropWhile isDigit = x :: t := by
  induction k with
  | nil => simp [List.takeWhile, List.dropWhile, hx]
  | cons c k ih =>
    have hc : isDigit c = true := hk c (List.mem_cons_self _ _)
    have := ih (fun d hd => hk d (List.mem_cons_of_mem _ hd))
    simp [List.takeWhile, List.dropWhile, hc, this]

/-- A block at the current position is matched whole: the numeral, the body (less a
final line feed) and the text after the blank line (with that line feed in front). -/
theorem matchAt_questionBlock (k b rest : JSString) (hk : IsNumeral k) (hb : NoBlankLine b) :
    ∃ body r, matchAt (questionBlock k b ++ rest) = some (k, body, r) ∧
      trim body = trim b ∧ (r = rest ∨ r = 10 :: rest) := by
  obtain ⟨body, r, h1, h2⟩ := splitAtBlankLine_append rest b hb
  refine ⟨body, r, ?_, ?_, ?_⟩
  · have e : questionBlock k b ++ rest = k ++ 46 :: (32 :: (b ++ 10 :: 10 :: rest)) := by
      simp [questionBlock]
    obtain ⟨t1, t2⟩ := takeWhile_numeral k hk.2 46 (by decide) (32 :: (b ++ 10 :: 10 :: rest))
    rw [e]
    unfold matchAt
    simp only [t1, t2, if_neg hk.1]
    simp [h1]
  · rcases h2 with ⟨e1, _⟩ | ⟨e1, _⟩
    · rw [e1]
    · rw [e1, trim_append_lf]
  · rcases h2 with ⟨_, e2⟩ | ⟨_, e2⟩
    · exact Or.inl e2
    · exact Or.inr e2

theorem matchAt_nondigit (c : ℕ) (t : JSString) (hc : isDigit c = false) :
    matchAt (c :: t) = none := by
  simp [matchAt, List.takeWhile, hc]

theorem matchAll_lf (s : JSString) : matchAll (10 :: s) = matchAll s := by
  rw [matchAll_cons, matchAt_nondigit 10 s (by decide)]

theorem questionBlock_cons (k b : JSString) (hk : IsNumeral k) :
    ∃ c t, questionBlock k b = c :: t := by
  obtain ⟨c, k', rfl⟩ := List.exists_cons_of_ne_nil hk.1
  exact ⟨c, k' ++ [46, 32] ++ b ++ [10, 10], by simp [questionBlock]⟩

/-- The matches in a sequence of blocks are the blocks, one match each. -/
theorem matchAll_document (post : JSString) (hpost : matchAll post = []) :
    ∀ blocks : List (JSString × JSString),
      (∀ p ∈ blocks, IsNumeral p.1 ∧ NoBlankLine p.2) →
      (matchAll (document blocks ++ post)).map (fun m => (m.1, trim m.2)) =
        blocks.map (fun p => (p.1, trim p.2)) := by
  intro blocks
  induction blocks with
  | nil => intro _; simp [document, hpost]
  | cons p ps ih =>
    intro h
    obtain ⟨hk, hb⟩ := h p (List.mem_cons_self _ _)
    have ih' := ih (fun q hq => h q (List.mem_cons_of_mem _ hq))
    have e : document (p :: ps) ++ post = questionBlock p.1 p.2 ++ (document ps ++ post) := by
      simp [document]
    obtain ⟨body, r, h1, h2, h3⟩ := matchAt_questionBlock p.1 p.2 (document ps ++ post) hk hb
    obtain ⟨c, t, hct⟩ := questionBlock_cons p.1 p.2 hk
    rw [e]
    rw [hct, List.cons_append] at h1 ⊢
    rw [matchAll_cons, h1]
    simp only [List.map_cons, h2]
    congr 1
    rcases h3 with rfl | rfl
    · exact ih'
    · rw [matchAll_lf]; exact ih'

/-! ## Objects and the segmenter -/

theorem assign_of_not_mem {κ α : Type} [DecidableEq κ] (obj : JSObject κ α) (key : κ) (value : α)
    (h : key ∉ obj.map (·.1)) : assign obj key value = obj ++ [(key, value)] := by
  induction obj with
  | nil => rfl
  | cons p obj ih =>
    obtain ⟨k, v⟩ := p
    simp only [List.map_cons, List.mem_cons, not_or] at h
    rw [assign, if_neg (Ne.symm h.1), ih h.2]
    rfl

theorem lookupKey_of_not_mem {κ α : Type} [DecidableEq κ] (obj : JSObject κ α) (key : κ)
    (h : key ∉ obj.map (·.1)) : lookupKey obj key = none := by
  induction obj with
  | nil => rfl
  | cons p obj ih =>
    obtain ⟨k, v⟩ := p
    simp only [List.map_cons, List.mem_cons, not_or] at h
    rw [lookupKey, if_neg (Ne.symm h.1), ih h.2]

theorem lookupKey_of_mem {κ α : Type} [DecidableEq κ] (obj : JSObject κ α) (key : κ) (value : α)
    (hn : (obj.map (·.1)).Nodup) (h : (key, value) ∈ obj) : lookupKey obj key = some value := by
  induction obj with
  | nil => simp at h
  | cons p obj ih =>
    obtain ⟨k, v⟩ := p
    simp only [List.map_cons, List.nodup_cons] at hn
    rcases List.mem_cons.1 h with h | h
    · simp only [Prod.mk.injEq] at h
      rw [lookupKey, if_pos h.1.symm, h.2]
    · have hk : k ≠ key := by
        rintro rfl
        exact hn.1 (List.mem_map.2 ⟨(k, value), h, rfl⟩)
      rw [lookupKey, if_neg hk, ih hn.2 h]

/-- Collecting matches with distinct numerals into an object keeps them all, in order. -/
theorem foldl_assign_matches : ∀ (ms : List (JSString × JSString))
    (obj : JSObject JSString JSString),
    (obj.map (·.1) ++ ms.map (·.1)).Nodup →
    ms.foldl (fun obj m => assign obj m.1 (trim m.2)) obj =
      obj ++ ms.map (fun m => (m.1, trim m.2)) := by
  intro ms
  induction ms with
  | nil => intro obj _; simp
  | cons m ms ih =>
    intro obj hn
    have hm : m.1 ∉ obj.map (·.1) := by
      intro hmem
      rw [List.nodup_append] at hn
      exact hn.2.2 hmem (by simp)
    rw [List.foldl_cons, assign_of_not_mem obj m.1 (trim m.2) hm, ih]
    · simp
    · have : (obj ++ [(m.1, trim m.2)]).map (·.1) ++ ms.map (·.1) =
          obj.map (·.1) ++ (m :: ms).map (·.1) := by simp
      rw [this]; exact hn

theorem matchAll_blank : matchAll [10, 10] = [] := by decide

/-- The segmenter on a text whose padded form is a sequence of blocks with distinct
numerals followed by `post`, a piece without a match. -/
theorem getQuestions_of_document (content : JSString) (blocks : List (JSString × JSString))
    (post : JSString) (he : content ++ [10, 10] = document blocks ++ post)
    (hpost : matchAll post = [])
    (hb : ∀ p ∈ blocks, IsNumeral p.1 ∧ NoBlankLine p.2) (hn : (blocks.map (·.1)).Nodup) :
    getQuestions content = blocks.map (fun p => (p.1, trim p.2)) := by
  have h := matchAll_document post hpost blocks hb
  have hkeys : (matchAll (document blocks ++ post)).map (·.1) = blocks.map (·.1) := by
    have := congrArg (List.map (·.1)) h
    simpa [List.map_map, Function.comp_def] using this
  unfold getQuestions
  simp only
  have e : [10, 10] ++ content ++ [10, 10] = 10 :: 10 :: (document blocks ++ post) := by
    rw [← he]; simp
  rw [e, matchAll_lf, matchAll_lf, foldl_assign_matches _ [] (by simpa [hkeys] using hn)]
  simpa using h

/-! ## Numerals -/

theorem decimal_isNumeral : ∀ (fuel n : ℕ), n < fuel →
    decimal fuel n ≠ [] ∧ ∀ c ∈ decimal fuel n, isDigit c = true := by
  intro fuel
  induction fuel with
  | zero => intro n h; omega
  | succ fuel ih =>
    intro n hn
    unfold decimal
    split_ifs with h
    · refine ⟨by simp, ?_⟩
      intro c hc
      simp only [List.mem_singleton] at hc
      subst hc
      simp [isDigit]; omega
    · obtain ⟨h1, h2⟩ := ih (n / 10) (by omega)
      refine ⟨by simp, ?_⟩
      intro c hc
      rcases List.mem_append.1 hc with hc | hc
      · exact h2 c hc
      · simp only [List.mem_singleton] at hc
        subst hc
        simp [isDigit]; omega

theorem isNumeral_numberToString (i : ℕ) : IsNumeral (numberToString i) :=
  decimal_isNumeral (i + 1) i (Nat.lt_succ_self i)

theorem decimal_value : ∀ (fuel n : ℕ), n < fuel →
    (decimal fuel n).foldl (fun acc c => 10 * acc + (c - 48)) 0 = n := by
  intro fuel
  induction fuel with
  | zero => intro n h; omega
  | succ fuel ih =>
    intro n hn
    unfold decimal
    split_ifs with h
    · simp
    · rw [List.foldl_append, ih (n / 10) (by omega)]
      simp only [List.foldl_cons, List.foldl_nil]
      omega

/-- Distinct indices have distinct numerals. -/
theorem numberToString_injective : Function.Injective numberToString := by
  intro i j h
  have hi := decimal_value (i + 1) i (Nat.lt_succ_self i)
  have hj := decimal_value (j + 1) j (Nat.lt_succ_self j)
  unfold numberToString at h
  rw [h] at hi
  omega

/-! ## Aggregation -/

theorem lookupKey_assign {κ α : Type} [DecidableEq κ] (obj : JSObject κ α) (key key' : κ)
    (value : α) :
    lookupKey (assign obj key value) key' =
      if key = key' then some value else lookupKey obj key' := by
  induction obj with
  | nil => simp [assign, lookupKey]
  | cons p obj ih =>
    obtain ⟨k, v⟩ := p
    by_cases hk : k = key
    · subst hk
      by_cases hk' : k = key' <;> simp [assign, lookupKey, hk']
    · by_cases hk' : k = key'
      · subst hk'
        simp [assign, lookupKey, hk, Ne.symm hk]
      · simp [assign, lookupKey, hk, hk', ih]

/-- The object built by assigning a value to each key of a list. -/
theorem lookupKey_foldl_assign {κ α : Type} [DecidableEq κ] (f : κ → α) (key : κ) :
    ∀ (keys : List κ) (obj : JSObject κ α),
      lookupKey (keys.foldl (fun obj k => assign obj k (f k)) obj) key =
        if key ∈ keys then some (f key) else lookupKey obj key := by
  intro keys
  induction keys with
  | nil => intro obj; simp
  | cons k keys ih =>
    intro obj
    rw [List.foldl_cons, ih, lookupKey_assign]
    by_cases h1 : key ∈ keys
    · simp [h1]
    · by_cases h2 : k = key
      · subst h2; simp [h1]
      · simp [h1, h2, Ne.symm h2]

/-- The averages table: for each algorithm of the list, the sum of its scores over the
keys of `questions`, in order, divided by their number. -/
theorem lookupKey_averages (algorithms : List String) (questions : JSObject ℕ SimilarityResult)
    (algo : String) (h : algo ∈ algorithms) :
    lookupKey (averages algorithms questions) algo =
      some (((questions.map (·.1)).foldl (fun sum key => sum.add (score questions key algo))
        (JSNumber.ofNat 0)).div (JSNumber.ofNat (questions.map (·.1)).length)) := by
  unfold averages
  simp only
  rw [lookupKey_foldl_assign
    (fun algo => ((questions.map (·.1)).foldl (fun sum key => sum.add (score questions key algo))
        (JSNumber.ofNat 0)).div (JSNumber.ofNat (questions.map (·.1)).length)),
    if_pos h]

/-- The loop over the question indices, from any list of indices and any table so far:
when it completes, every comparison succeeded and the table holds them all. -/
theorem questionsLoop_foldlM (h : Host) (src tgt : JSObject JSString JSString) :
    ∀ (indices : List ℕ) (acc qs : JSObject ℕ SimilarityResult),
      (acc.map (·.1) ++ indices).Nodup →
      indices.foldlM
        (fun questions i => do
          let result ← similarity h (lookupKey src (numberToString i))
            (lookupKey tgt (numberToString i))
          pure (assign questions i result)) acc = Except.ok qs →
      qs.map (·.1) = acc.map (·.1) ++ indices ∧
        (∀ i ∈ indices, ∃ r, similarity h (lookupKey src (numberToString i))
          (lookupKey tgt (numberToString i)) = Except.ok r ∧ lookupKey qs i = some r) ∧
        (∀ p ∈ acc, p ∈ qs) := by
  intro indices
  induction indices with
  | nil =>
    intro acc qs _ hq
    simp only [List.foldlM_nil, pure, Except.pure, Except.ok.injEq] at hq
    subst hq
    simp
  | cons i indices ih =>
    intro acc qs hn hq
    rw [List.foldlM_cons] at hq
    cases hs : similarity h (lookupKey src (numberToString i)) (lookupKey tgt (numberToString i)) with
    | error e =>
      rw [hs] at hq
      simp [bind, Except.bind] at hq
    | ok r =>
      rw [hs] at hq
      simp only [bind, Except.bind, pure, Except.pure] at hq
      have hi : i ∉ acc.map (·.1) := by
        intro hmem
        rw [List.nodup_append] at hn
        exact hn.2.2 hmem (List.mem_cons_self _ _)
      rw [assign_of_not_mem acc i r hi] at hq
      have hn' : ((acc ++ [(i, r)]).map (·.1) ++ indices).Nodup := by
        simpa using hn
      obtain ⟨k1, k2, k3⟩ := ih (acc ++ [(i, r)]) qs hn' hq
      have hkeys : qs.map (·.1) = acc.map (·.1) ++ i :: indices := by simpa using k1
      refine ⟨hkeys, ?_, ?_⟩
      · intro j hj
        rcases List.mem_cons.1 hj with rfl | hj
        · refine ⟨r, hs, ?_⟩
          apply lookupKey_of_mem qs j r (by rw [hkeys]; exact hn)
          exact k3 _ (by simp)
        · exact k2 j hj
      · intro p hp
        exact k3 p (List.mem_append_left _ hp)

/-- When the loop of lines 126-128 completes, the table has the keys 1 to 50, in this
order, each with the result of its comparison. -/
theorem questionsLoop_ok (h : Host) (src tgt : JSObject JSString JSString)
    (qs : JSObject ℕ SimilarityResult) (hq : questionsLoop h src tgt = Except.ok qs) :
    qs.map (·.1) = List.range' 1 50 ∧
      ∀ i ∈ List.range' 1 50, ∃ r, similarity h (lookupKey src (numberToString i))
          (lookupKey tgt (numberToString i)) = Except.ok r ∧ lookupKey qs i = some r := by
  obtain ⟨k1, k2, -⟩ := questionsLoop_foldlM h src tgt (List.range' 1 50) [] qs
    (by simpa using List.nodup_range' 1 50) hq
  exact ⟨by simpa using k1, k2⟩

/-- A question missing on either side stops the loop with a `TypeError`. -/
theorem questionsLoop_missing (h : Host) (src tgt : JSObject JSString JSString) (i : ℕ)
    (hi : i ∈ List.range' 1 50)
    (hm : lookupKey src (numberToString i) = none ∨ lookupKey tgt (numberToString i) = none) :
    questionsLoop h src tgt = Except.error JSError.typeError := by
  cases hq : questionsLoop h src tgt with
  | error e => cases e; rfl
  | ok qs =>
    exfalso
    obtain ⟨r, hr, -⟩ := (questionsLoop_ok h src tgt qs hq).2 i hi
    rcases hm with hm | hm
    · rw [hm] at hr; simp [similarity] at hr
    · rw [hm] at hr
      cases hs : lookupKey src (numberToString i) <;> rw [hs] at hr <;> simp [similarity] at hr

/-- The result of `processDir` when it completes. -/
theorem processDir_ok (h : Host) (source target : JSString) (stats : Stats)
    (hok : processDir h source target = Except.ok stats) :
    ∃ files questions,
      similarity h (some (eol source)) (some (eol target)) = Except.ok files ∧
      questionsLoop h (getQuestions (eol source)) (getQuestions (eol target)) =
        Except.ok questions ∧
      stats = { files := files, average := averages (files.map (·.1)) questions,
                questions := questions } := by
  unfold processDir at hok
  dsimp only at hok
  cases hf : similarity h (some (eol source)) (some (eol target)) with
  | error e => rw [hf] at hok; simp [bind, Except.bind] at hok
  | ok files =>
    cases hq : questionsLoop h (getQuestions (eol source)) (getQuestions (eol target)) with
    | error e => rw [hf, hq] at hok; simp [bind, Except.bind] at hok
    | ok questions =>
      rw [hf, hq] at hok
      simp only [bind, Except.bind, pure, Except.pure, Except.ok.injEq] at hok
      exact ⟨files, questions, rfl, rfl, hok.symm⟩

/-! ## The claims -/

/-- C1 (missing question): the aggregation loop does not treat a missing question as
the empty string.  With a source that has no question 7 and a target whose question 7
is `x`, the comparison for index 7 is `similarity(undefined, "x")`, which throws a
`TypeError`; `processDir` on a source with the questions 1-6 and 8-50 and a target
with the questions 1-50 ends with that error instead of computing `questions[7]`. -/
theorem missing_question_raises :
    lookupKey (getQuestions (utf16 "")) (numberToString 7) = none ∧
    lookupKey (getQuestions (utf16 "7. x\n\n")) (numberToString 7) = some (utf16 "x") ∧
    similarity asciiHost (lookupKey (getQuestions (utf16 "")) (numberToString 7))
      (lookupKey (getQuestions (utf16 "7. x\n\n")) (numberToString 7)) =
        Except.error JSError.typeError ∧
    processDir asciiHost
      (document (((List.range' 1 50).filter (fun i => i ≠ 7)).map
        (fun i => (numberToString i, utf16 "q"))))
      (document ((List.range' 1 50).map (fun i => (numberToString i, utf16 "x")))) =
        Except.error JSError.typeError := by
  have h1 : lookupKey (getQuestions (utf16 "")) (numberToString 7) = none := by decide!
  refine ⟨h1, by decide!, by rw [h1]; rfl, ?_⟩
  cases hp : processDir asciiHost
      (document (((List.range' 1 50).filter (fun i => i ≠ 7)).map
        (fun i => (numberToString i, utf16 "q"))))
      (document ((List.range' 1 50).map (fun i => (numberToString i, utf16 "x")))) with
  | error e => cases e; rfl
  | ok stats =>
    have hf : (processDir asciiHost
      (document (((List.range' 1 50).filter (fun i => i ≠ 7)).map
        (fun i => (numberToString i, utf16 "q"))))
      (document ((List.range' 1 50).map (fun i => (numberToString i, utf16 "x"))))).isOk
        = false := by decide!
    rw [hp] at hf
    simp [Except.isOk, Except.toBool] at hf

/-- C2 (edit-distance score): for strings that are not both empty,
`levenshteinSimilarity(a, b)` is the JavaScript value of `((L - d) / L) * 100`, where
`L` is the larger length and `d` the classic edit distance: the exact quotient rounded
to a double, multiplied by 100 and rounded again; this value is within `10^-13` of the
exact rational `((L - d) / L) * 100`. -/
theorem levenshteinSimilarity_formula (a b : JSString) (hL : 0 < max a.length b.length) :
    levenshteinSimilarity a b =
        ((JSNumber.fin (((max a.length b.length : ℕ) : ℚ) - ((editDistance a b : ℕ) : ℚ))).div
          (JSNumber.ofNat (max a.length b.length))).mul (JSNumber.ofNat 100) ∧
      ∃ q, levenshteinSimilarity a b = JSNumber.fin q ∧
        |q - (((max a.length b.length : ℕ) : ℚ) - ((editDistance a b : ℕ) : ℚ)) /
          ((max a.length b.length : ℕ) : ℚ) * 100| ≤ 1 / 10 ^ 13 := by
  constructor
  · unfold levenshteinSimilarity
    simp only [levenshtein_get_eq_editDistance]
  · obtain ⟨r0, r1⟩ := levenshtein_ratio_range a b hL
    exact ⟨_, levenshteinSimilarity_eq a b hL, percent_close r0 r1⟩

/-- Witness of C2: the two instances of the claim.  `"foo bar"` against `"foo baz"`
gives the double `(6 / 7) * 100`, that is 85.71428571428571, and `"hello world"`
against itself gives 100. -/
theorem levenshteinSimilarity_formula_witness :
    0 < max (utf16 "foo bar").length (utf16 "foo baz").length ∧
    levenshteinSimilarity (utf16 "foo bar") (utf16 "foo baz") =
      ((JSNumber.fin 6).div (JSNumber.fin 7)).mul (JSNumber.fin 100) ∧
    levenshteinSimilarity (utf16 "foo bar") (utf16 "foo baz") =
      JSNumber.fin (6031606643799771 / 2 ^ 46) ∧
    levenshteinSimilarity (utf16 "hello world") (utf16 "hello world") = JSNumber.fin 100 := by
  have h := (levenshteinSimilarity_formula (utf16 "foo bar") (utf16 "foo baz") (by decide)).1
  have hw := (levenshteinSimilarity_formula (utf16 "hello world") (utf16 "hello world")
    (by decide)).1
  rw [← levenshtein_get_eq_editDistance] at h hw
  refine ⟨by decide, h.trans (by decide!), h.trans (by decide!), hw.trans (by decide!)⟩

/-- Counterexample to C3: for `"a b c"` against itself `cosineSimilarity` returns
`100 + 2^-45`, that is 100.00000000000003, which is above 100. -/
theorem cosineSimilarity_above_100 :
    cosineSimilarity asciiHost (utf16 "a b c") (utf16 "a b c") = JSNumber.fin (100 + 1 / 2 ^ 45) ∧
      (100 : ℚ) < 100 + 1 / 2 ^ 45 :=
  ⟨by decide!, by norm_num⟩

/-- C3 as amended (range): `levenshteinSimilarity` lies in `[0, 100]` when the strings
are not both empty, `jaccardSimilarity` lies in `[0, 100]` when the strings have a
token between them, and `cosineSimilarity` is always a finite number in
`[0, 100 + 10^-13]`. -/
theorem metrics_range (h : Host) (a b : JSString) :
    ((a ≠ [] ∨ b ≠ []) →
      ∃ q, levenshteinSimilarity a b = JSNumber.fin q ∧ 0 ≤ q ∧ q ≤ 100) ∧
    ((tokenize h a ≠ [] ∨ tokenize h b ≠ []) →
      ∃ q, jaccardSimilarity h a b = JSNumber.fin q ∧ 0 ≤ q ∧ q ≤ 100) ∧
    ∃ q, cosineSimilarity h a b = JSNumber.fin q ∧ 0 ≤ q ∧ q ≤ 100 + 1 / 10 ^ 13 :=
  ⟨levenshteinSimilarity_range a b, jaccardSimilarity_range h a b, cosineSimilarity_range h a b⟩

/-- Witness of C3 as amended, at `"foo bar"` and `"foo baz"`. -/
theorem metrics_range_witness :
    (utf16 "foo bar" ≠ [] ∨ utf16 "foo baz" ≠ []) ∧
    (tokenize asciiHost (utf16 "foo bar") ≠ [] ∨ tokenize asciiHost (utf16 "foo baz") ≠ []) ∧
    (∃ q, levenshteinSimilarity (utf16 "foo bar") (utf16 "foo baz") = JSNumber.fin q ∧
      0 ≤ q ∧ q ≤ 100) ∧
    (∃ q, jaccardSimilarity asciiHost (utf16 "foo bar") (utf16 "foo baz") = JSNumber.fin q ∧
      0 ≤ q ∧ q ≤ 100) ∧
    ∃ q, cosineSimilarity asciiHost (utf16 "foo bar") (utf16 "foo baz") = JSNumber.fin q ∧
      0 ≤ q ∧ q ≤ 100 + 1 / 10 ^ 13 :=
  have t := metrics_range asciiHost (utf16 "foo bar") (utf16 "foo baz")
  ⟨by decide, by decide, t.1 (by decide), t.2.1 (by decide), t.2.2⟩

/-- C4 (commutativity): each of the three metrics gives the same result, `NaN`
included, when its arguments are exchanged. -/
theorem metrics_commutative (h : Host) (a b : JSString) :
    levenshteinSimilarity a b = levenshteinSimilarity b a ∧
    jaccardSimilarity h a b = jaccardSimilarity h b a ∧
    cosineSimilarity h a b = cosineSimilarity h b a :=
  ⟨levenshteinSimilarity_comm a b, jaccardSimilarity_comm h a b, cosineSimilarity_comm h a b⟩

/-- Counterexample to C5: the non-empty string `"!"` has no token, so against itself
`jaccardSimilarity` is `NaN` and `cosineSimilarity` is 0; and for `"a b"` against itself
`cosineSimilarity` is `100 - 2^-45`, that is 99.99999999999997. -/
theorem identity_fails :
    utf16 "!" ≠ [] ∧
    jaccardSimilarity asciiHost (utf16 "!") (utf16 "!") = JSNumber.nan ∧
    cosineSimilarity asciiHost (utf16 "!") (utf16 "!") = JSNumber.fin 0 ∧
    cosineSimilarity asciiHost (utf16 "a b") (utf16 "a b") = JSNumber.fin (100 - 1 / 2 ^ 45) :=
  ⟨by decide, by decide!, by decide!, by decide!⟩

/-- C5 as amended (identity): on the pair `(a, a)`, `levenshteinSimilarity` is exactly
100 for every non-empty `a`, `jaccardSimilarity` is exactly 100 for every `a` with at
least one token, and `cosineSimilarity` is within `10^-13` of 100 for every `a` with
at least one token of the word tokenizer; for an `a` without tokens
`jaccardSimilarity` is `NaN` and `cosineSimilarity` is 0. -/
theorem metrics_identity (h : Host) (a : JSString) :
    (a ≠ [] → levenshteinSimilarity a a = JSNumber.fin 100) ∧
    (tokenize h a ≠ [] → jaccardSimilarity h a a = JSNumber.fin 100) ∧
    (wordTokenize h (h.toLowerCase a) ≠ [] →
      ∃ q, cosineSimilarity h a a = JSNumber.fin q ∧ |q - 100| ≤ 1 / 10 ^ 13) ∧
    (tokenize h a = [] → jaccardSimilarity h a a = JSNumber.nan) ∧
    (wordTokenize h (h.toLowerCase a) = [] → cosineSimilarity h a a = JSNumber.fin 0) :=
  ⟨levenshteinSimilarity_self a, jaccardSimilarity_self h a, cosineSimilarity_self h a,
    fun ht => jaccardSimilarity_of_no_tokens h a a ht ht,
    fun ht => cosineSimilarity_of_no_tokens h a a (Or.inl ht)⟩

/-- Witness of C5 as amended, at `"hello world"`. -/
theorem metrics_identity_witness :
    utf16 "hello world" ≠ [] ∧ tokenize asciiHost (utf16 "hello world") ≠ [] ∧
    wordTokenize asciiHost (asciiHost.toLowerCase (utf16 "hello world")) ≠ [] ∧
    levenshteinSimilarity (utf16 "hello world") (utf16 "hello world") = JSNumber.fin 100 ∧
    jaccardSimilarity asciiHost (utf16 "hello world") (utf16 "hello world") = JSNumber.fin 100 ∧
    ∃ q, cosineSimilarity asciiHost (utf16 "hello world") (utf16 "hello world") =
      JSNumber.fin q ∧ |q - 100| ≤ 1 / 10 ^ 13 :=
  have t := metrics_identity asciiHost (utf16 "hello world")
  ⟨by decide, by decide, by decide, t.1 (by decide), t.2.1 (by decide), t.2.2.1 (by decide)⟩

/-- C6 (segmentation round trip): for indices `i` that are pairwise distinct and bodies
without a blank line, `getQuestions` applied to the concatenation of the blocks
`"{i}. {body_i}\n\n"` returns exactly the map from the numeral of each `i` to `body_i`
trimmed: each index is found with its trimmed body and no other index is found. -/
theorem getQuestions_roundtrip (questions : List (ℕ × JSString))
    (hb : ∀ p ∈ questions, NoBlankLine p.2) (hn : (questions.map (·.1)).Nodup) :
    getQuestions (document (questions.map (fun p => (numberToString p.1, p.2)))) =
        questions.map (fun p => (numberToString p.1, trim p.2)) ∧
    (∀ i body, (i, body) ∈ questions →
      lookupKey (getQuestions (document (questions.map (fun p => (numberToString p.1, p.2)))))
        (numberToString i) = some (trim body)) ∧
    (∀ i, i ∉ questions.map (·.1) →
      lookupKey (getQuestions (document (questions.map (fun p => (numberToString p.1, p.2)))))
        (numberToString i) = none) := by
  have hkeys : ((questions.map (fun p => (numberToString p.1, p.2))).map (·.1)).Nodup := by
    have : (questions.map (fun p => (numberToString p.1, p.2))).map (·.1) =
        (questions.map (·.1)).map numberToString := by
      simp [List.map_map, Function.comp_def]
    rw [this]
    exact hn.map numberToString_injective
  have hvalid : ∀ p ∈ questions.map (fun p => (numberToString p.1, p.2)),
      IsNumeral p.1 ∧ NoBlankLine p.2 := by
    intro p hp
    obtain ⟨q, hq, rfl⟩ := List.mem_map.1 hp
    exact ⟨isNumeral_numberToString q.1, hb q hq⟩
  have h := getQuestions_of_document
    (document (questions.map (fun p => (numberToString p.1, p.2))))
    (questions.map (fun p => (numberToString p.1, p.2))) [10, 10] rfl matchAll_blank hvalid hkeys
  have h' : getQuestions (document (questions.map (fun p => (numberToString p.1, p.2)))) =
      questions.map (fun p => (numberToString p.1, trim p.2)) := by
    rw [h]; simp [List.map_map, Function.comp_def]
  have hkeys' : ((questions.map (fun p => (numberToString p.1, trim p.2))).map (·.1)) =
      (questions.map (·.1)).map numberToString := by
    simp [List.map_map, Function.comp_def]
  refine ⟨h', ?_, ?_⟩
  · intro i body hmem
    rw [h']
    apply lookupKey_of_mem _ _ _ (by rw [hkeys']; exact hn.map numberToString_injective)
    exact List.mem_map.2 ⟨(i, body), hmem, rfl⟩
  · intro i hi
    rw [h']
    apply lookupKey_of_not_mem
    rw [hkeys']
    intro hmem
    obtain ⟨j, hj, hji⟩ := List.mem_map.1 hmem
    exact hi (numberToString_injective hji ▸ hj)

/-- Witness of C6: the spec's scenario, `"1. hello world\n\n2. foo bar\n\n"`, yields
`{1: "hello world", 2: "foo bar"}`. -/
theorem getQuestions_roundtrip_witness :
    (∀ p ∈ [(1, utf16 "hello world"), (2, utf16 "foo bar")], NoBlankLine p.2) ∧
    ([(1, utf16 "hello world"), (2, utf16 "foo bar")].map (·.1)).Nodup ∧
    getQuestions (utf16 "1. hello world\n\n2. foo bar\n\n") =
      [(utf16 "1", utf16 "hello world"), (utf16 "2", utf16 "foo bar")] := by
  have hb : ∀ p ∈ [(1, utf16 "hello world"), (2, utf16 "foo bar")], NoBlankLine p.2 := by
    intro p hp
    simp only [List.mem_cons, List.mem_singleton, List.not_mem_nil, or_false] at hp
    rcases hp with rfl | rfl <;> unfold NoBlankLine <;> decide
  have hn : ([(1, utf16 "hello world"), (2, utf16 "foo bar")].map (·.1)).Nodup := by decide
  have h := (getQuestions_roundtrip [(1, utf16 "hello world"), (2, utf16 "foo bar")] hb hn).1
  have e : document ([(1, utf16 "hello world"), (2, utf16 "foo bar")].map
      (fun p => (numberToString p.1, p.2))) = utf16 "1. hello world\n\n2. foo bar\n\n" := by
    decide
  rw [e] at h
  exact ⟨hb, hn, h.trans (by decide)⟩

/-- Counterexample to C8: the block `"007. x\n\n"` is not retrievable under index 7, nor
`"01. x\n\n"` under index 1, while `"7. x\n\n"` is retrievable under index 7. -/
theorem leading_zeros_kept :
    lookupKey (getQuestions (utf16 "007. x\n\n")) (numberToString 7) = none ∧
    lookupKey (getQuestions (utf16 "01. x\n\n")) (numberToString 1) = none ∧
    lookupKey (getQuestions (utf16 "7. x\n\n")) (numberToString 7) = some (utf16 "x") :=
  ⟨by decide!, by decide!, by decide!⟩

/-- C8 as amended (keys): the captured digit sequence itself, as written, is the key.
A block `"{digits}. {body}\n\n"` whose body has no blank line is stored under `digits`
and is retrievable under an index `i` exactly when `digits` is the numeral of `i`, so a
block written with leading zeros is not retrievable under its integer value. -/
theorem getQuestions_key (digits body : JSString) (hd : IsNumeral digits)
    (hb : NoBlankLine body) (i : ℕ) :
    getQuestions (questionBlock digits body) = [(digits, trim body)] ∧
    lookupKey (getQuestions (questionBlock digits body)) (numberToString i) =
      if digits = numberToString i then some (trim body) else none := by
  have h := getQuestions_of_document (questionBlock digits body) [(digits, body)] [10, 10]
    (by simp [document]) matchAll_blank
    (by intro p hp; simp only [List.mem_singleton] at hp; subst hp; exact ⟨hd, hb⟩)
    (by simp)
  simp only [List.map_cons, List.map_nil] at h
  refine ⟨h, ?_⟩
  rw [h]
  simp [lookupKey]

/-- Witness of C8 as amended: the block `"007. x\n\n"` is stored under `"007"` and index
7 finds nothing. -/
theorem getQuestions_key_witness :
    IsNumeral (utf16 "007") ∧ NoBlankLine (utf16 "x") ∧
    getQuestions (utf16 "007. x\n\n") = [(utf16 "007", utf16 "x")] ∧
    lookupKey (getQuestions (utf16 "007. x\n\n")) (numberToString 7) = none := by
  have hd : IsNumeral (utf16 "007") := ⟨by decide, by decide⟩
  have hb : NoBlankLine (utf16 "x") := by unfold NoBlankLine; decide
  have h := getQuestions_key (utf16 "007") (utf16 "x") hd hb 7
  have e : questionBlock (utf16 "007") (utf16 "x") = utf16 "007. x\n\n" := by decide
  rw [e] at h
  exact ⟨hd, hb, h.1.trans (by decide), h.2.trans (by decide)⟩

/-- Counterexample to C9: the text `"1. hello"` ends right after the body of its final
block, with no blank line, and `getQuestions` still returns that block under key 1. -/
theorem trailing_block_found :
    getQuestions (utf16 "1. hello") = [(utf16 "1", utf16 "hello")] ∧
    lookupKey (getQuestions (utf16 "1. hello")) (numberToString 1) = some (utf16 "hello") :=
  ⟨by decide!, by decide!⟩

/-- C9 as amended (trailing block): a final block `"{digits}. {body}"` that is not
followed by a blank line is kept.  After any sequence of complete blocks, it is matched
against the blank line that `getQuestions` appends to the text, so the result is the
same as if the block were terminated: it holds the final block's key with the trimmed
body. -/
theorem getQuestions_trailing (blocks : List (JSString × JSString)) (digits body : JSString)
    (hb : ∀ p ∈ blocks, IsNumeral p.1 ∧ NoBlankLine p.2) (hd : IsNumeral digits)
    (hbody : NoBlankLine body) (hn : (blocks.map (·.1) ++ [digits]).Nodup) :
    getQuestions (document blocks ++ (digits ++ [46, 32] ++ body)) =
        blocks.map (fun p => (p.1, trim p.2)) ++ [(digits, trim body)] ∧
    lookupKey (getQuestions (document blocks ++ (digits ++ [46, 32] ++ body))) digits =
        some (trim body) ∧
    getQuestions (document blocks ++ (digits ++ [46, 32] ++ body)) =
        getQuestions (document blocks ++ questionBlock digits body) := by
  have hvalid : ∀ p ∈ blocks ++ [(digits, body)], IsNumeral p.1 ∧ NoBlankLine p.2 := by
    intro p hp
    rcases List.mem_append.1 hp with hp | hp
    · exact hb p hp
    · simp only [List.mem_singleton] at hp; subst hp; exact ⟨hd, hbody⟩
  have hkeys : ((blocks ++ [(digits, body)]).map (·.1)).Nodup := by simpa using hn
  have h1 := getQuestions_of_document (document blocks ++ (digits ++ [46, 32] ++ body))
    (blocks ++ [(digits, body)]) [] (by simp [document, questionBlock]) matchAll_nil hvalid hkeys
  have h2 := getQuestions_of_document (document blocks ++ questionBlock digits body)
    (blocks ++ [(digits, body)]) [10, 10] (by simp [document]) matchAll_blank hvalid hkeys
  have e : (blocks ++ [(digits, body)]).map (fun p => (p.1, trim p.2)) =
      blocks.map (fun p => (p.1, trim p.2)) ++ [(digits, trim body)] := by simp
  rw [e] at h1 h2
  refine ⟨h1, ?_, h1.trans h2.symm⟩
  rw [h1]
  apply lookupKey_of_mem _ _ _ (by simpa using hn)
  simp

/-- Witness of C9 as amended: `"1. hello world\n\n2. foo bar"`, whose second block is
not terminated, yields both questions. -/
theorem getQuestions_trailing_witness :
    (∀ p ∈ [(utf16 "1", utf16 "hello world")], IsNumeral p.1 ∧ NoBlankLine p.2) ∧
    IsNumeral (utf16 "2") ∧ NoBlankLine (utf16 "foo bar") ∧
    getQuestions (utf16 "1. hello world\n\n2. foo bar") =
      [(utf16 "1", utf16 "hello world"), (utf16 "2", utf16 "foo bar")] := by
  have hb : ∀ p ∈ [(utf16 "1", utf16 "hello world")], IsNumeral p.1 ∧ NoBlankLine p.2 := by
    intro p hp
    simp only [List.mem_singleton] at hp
    subst hp
    exact ⟨⟨by decide, by decide⟩, by unfold NoBlankLine; decide⟩
  have hd : IsNumeral (utf16 "2") := ⟨by decide, by decide⟩
  have hbody : NoBlankLine (utf16 "foo bar") := by unfold NoBlankLine; decide
  have h := (getQuestions_trailing [(utf16 "1", utf16 "hello world")] (utf16 "2")
    (utf16 "foo bar") hb hd hbody (by decide)).1
  have e : document [(utf16 "1", utf16 "hello world")] ++
      (utf16 "2" ++ [46, 32] ++ utf16 "foo bar") = utf16 "1. hello world\n\n2. foo bar" := by
    decide
  rw [e] at h
  exact ⟨hb, hd, hbody, h.trans (by decide)⟩

/-- C10 (zero-norm guard): when one of the two texts yields no token, `cosineSimilarity`
returns exactly 0, not `NaN`; this is the case of an empty text as soon as `toLowerCase`
maps the empty string to itself, both texts empty included. -/
theorem cosineSimilarity_zero_guard (h : Host) (a b : JSString) :
    ((wordTokenize h (h.toLowerCase a) = [] ∨ wordTokenize h (h.toLowerCase b) = []) →
      cosineSimilarity h a b = JSNumber.fin 0) ∧
    (h.toLowerCase [] = [] →
      cosineSimilarity h [] b = JSNumber.fin 0 ∧ cosineSimilarity h a [] = JSNumber.fin 0 ∧
        cosineSimilarity h [] [] = JSNumber.fin 0) := by
  refine ⟨cosineSimilarity_of_no_tokens h a b, fun h0 => ?_⟩
  have hnil : wordTokenize h (h.toLowerCase []) = [] := by rw [h0, wordTokenize_nil]
  exact ⟨cosineSimilarity_of_no_tokens h [] b (Or.inl hnil),
    cosineSimilarity_of_no_tokens h a [] (Or.inr hnil),
    cosineSimilarity_of_no_tokens h [] [] (Or.inl hnil)⟩

/-- Witness of C10: the empty text and a text of punctuation only, against `"x"` and
against each other. -/
theorem cosineSimilarity_zero_guard_witness :
    (wordTokenize asciiHost (asciiHost.toLowerCase (utf16 "?!")) = [] ∨
      wordTokenize asciiHost (asciiHost.toLowerCase (utf16 "x")) = []) ∧
    asciiHost.toLowerCase [] = [] ∧
    cosineSimilarity asciiHost (utf16 "?!") (utf16 "x") = JSNumber.fin 0 ∧
    cosineSimilarity asciiHost [] (utf16 "x") = JSNumber.fin 0 ∧
    cosineSimilarity asciiHost (utf16 "?!") [] = JSNumber.fin 0 ∧
    cosineSimilarity asciiHost [] [] = JSNumber.fin 0 :=
  have t := cosineSimilarity_zero_guard asciiHost (utf16 "?!") (utf16 "x")
  have t0 := t.2 (by decide)
  ⟨Or.inl (by decide), by decide, t.1 (Or.inl (by decide)), t0.1, t0.2.1, t0.2.2⟩

/-! ## Line endings -/

/-- The two replacements of `eol`, one after the other, amount to the single pass. -/
theorem eol_eq_normaliseLineEndings (t : JSString) : eol t = normaliseLineEndings t := by
  unfold eol
  induction t using crlfToLf.induct with
  | case1 => rfl
  | case2 c => rfl
  | case3 c d t h ih =>
    rw [crlfToLf, if_pos h, normaliseLineEndings, if_pos h, List.map_cons, ih]
    rfl
  | case4 c d t h ih =>
    rw [crlfToLf, if_neg h, normaliseLineEndings, if_neg h, List.map_cons, ih]

theorem not_mem_eol (t : JSString) : 13 ∉ eol t := by
  unfold eol
  intro h
  obtain ⟨c, -, hc⟩ := List.mem_map.1 h
  split_ifs at hc with h13
  · omega
  · exact h13 hc

theorem crlfToLf_of_not_mem (t : JSString) (h : 13 ∉ t) : crlfToLf t = t := by
  induction t using crlfToLf.induct with
  | case1 => rfl
  | case2 c => rfl
  | case3 c d t hc _ =>
    exact absurd (hc.1 ▸ List.mem_cons_self c (d :: t)) h
  | case4 c d t hc ih =>
    rw [crlfToLf, if_neg hc, ih (fun hm => h (List.mem_cons_of_mem _ hm))]

/-- A text without a carriage return is left as it is. -/
theorem eol_of_not_mem (t : JSString) (h : 13 ∉ t) : eol t = t := by
  unfold eol
  rw [crlfToLf_of_not_mem t h]
  conv_rhs => rw [← List.map_id t]
  apply List.map_congr_left
  intro c hc
  have : c ≠ 13 := fun e => h (e ▸ hc)
  simp [this]

/-- The characters other than line endings are kept, in their order. -/
theorem filter_eol (t : JSString) :
    (eol t).filter (fun c => decide (c ≠ 10)) =
      t.filter (fun c => decide (c ≠ 13 ∧ c ≠ 10)) := by
  unfold eol
  induction t using crlfToLf.induct with
  | case1 => rfl
  | case2 c =>
    by_cases h13 : c = 13
    · subst h13; simp [crlfToLf]
    · by_cases h10 : c = 10 <;> simp [crlfToLf, h13, h10]
  | case3 c d t h ih =>
    obtain ⟨rfl, rfl⟩ := h
    rw [crlfToLf, if_pos ⟨rfl, rfl⟩, List.map_cons, List.filter_cons, List.filter_cons,
      List.filter_cons, ih]
    simp
  | case4 c d t h ih =>
    rw [crlfToLf, if_neg h, List.map_cons, List.filter_cons, ih]
    conv_rhs => rw [List.filter_cons]
    by_cases h13 : c = 13
    · subst h13; simp
    · by_cases h10 : c = 10 <;> simp [h13, h10]

/-- The length of the text after `eol`: one character less per `\r\n` pair. -/
theorem length_eol_le (t : JSString) : (eol t).length ≤ t.length := by
  unfold eol
  rw [List.length_map]
  induction t using crlfToLf.induct with
  | case1 => simp [crlfToLf]
  | case2 c => simp [crlfToLf]
  | case3 c d t h ih => rw [crlfToLf, if_pos h]; simp only [List.length_cons]; omega
  | case4 c d t h ih => rw [crlfToLf, if_neg h]; simp only [List.length_cons] at ih ⊢; omega

/-- C12 (line-ending normalisation): for every text, `eol` (and `unifyEol`, the same
code) returns a text without a carriage return that is the text with each `\r\n` pair
replaced by one `\n` and each other `\r` replaced by one `\n`; the characters that are
not line endings are kept in their order; a text without `\r` is returned unchanged,
and `eol` is idempotent. -/
theorem eol_normalises (t : JSString) :
    13 ∉ eol t ∧
    eol t = normaliseLineEndings t ∧
    (eol t).filter (fun c => decide (c ≠ 10)) = t.filter (fun c => decide (c ≠ 13 ∧ c ≠ 10)) ∧
    (13 ∉ t → eol t = t) ∧
    eol (eol t) = eol t ∧
    unifyEol t = eol t :=
  ⟨not_mem_eol t, eol_eq_normaliseLineEndings t, filter_eol t, eol_of_not_mem t,
    eol_of_not_mem (eol t) (not_mem_eol t), rfl⟩

/-- Witness of C12: `"a\r\nb\rc\r\r\nd\n"` becomes `"a\nb\nc\n\nd\n"`, and `"a\nb"`,
which has no carriage return, is unchanged. -/
theorem eol_normalises_witness :
    eol (utf16 "a\r\nb\rc\r\r\nd\n") = utf16 "a\nb\nc\n\nd\n" ∧
    13 ∉ utf16 "a\nb" ∧ eol (utf16 "a\nb") = utf16 "a\nb" ∧
    eol (eol (utf16 "a\r\nb\rc\r\r\nd\n")) = eol (utf16 "a\r\nb\rc\r\r\nd\n") :=
  have t := eol_normalises (utf16 "a\r\nb\rc\r\r\nd\n")
  have u := eol_normalises (utf16 "a\nb")
  ⟨t.2.1.trans (by decide), by decide, u.2.2.2.1 (by decide), t.2.2.2.2.1⟩

/-! ## The report table -/

/-- A loop of fallible steps that all succeed returns the list of their results. -/
theorem mapM_ok {α β : Type} (f : α → Except JSError β) (g : α → β) :
    ∀ l : List α, (∀ a ∈ l, f a = Except.ok (g a)) → l.mapM f = Except.ok (l.map g) := by
  intro l
  induction l with
  | nil => intro _; rfl
  | cons a l ih =>
    intro h
    rw [List.mapM_cons, h a (List.mem_cons_self _ _),
      ih (fun b hb => h b (List.mem_cons_of_mem _ hb))]
    rfl

theorem lookupKey_of_mem_keys {κ α : Type} [DecidableEq κ] (obj : JSObject κ α) (key : κ)
    (h : key ∈ obj.map (·.1)) : ∃ value, lookupKey obj key = some value := by
  induction obj with
  | nil => simp at h
  | cons p obj ih =>
    obtain ⟨k, v⟩ := p
    by_cases hk : k = key
    · exact ⟨v, by rw [lookupKey, if_pos hk]⟩
    · have : key ∈ obj.map (·.1) := by
        rcases List.mem_cons.1 h with h | h
        · exact absurd h.symm hk
        · exact h
      obtain ⟨value, hv⟩ := ih this
      exact ⟨value, by rw [lookupKey, if_neg hk, hv]⟩

/-- The cell of an algorithm that the object holds. -/
theorem fixedCell_ok (toFixed : JSNumber → JSString) (obj : SimilarityResult) (algo : String)
    (h : algo ∈ obj.map (·.1)) :
    fixedCell toFixed obj algo = Except.ok (toFixed (valueOf obj algo)) := by
  obtain ⟨value, hv⟩ := lookupKey_of_mem_keys obj algo h
  simp [fixedCell, valueOf, hv]

/-- Every result of `similarity` has the twelve algorithm names as its keys, in order. -/
theorem similarity_keys (h : Host) (text1 text2 : Option JSString) (r : SimilarityResult)
    (hr : similarity h text1 text2 = Except.ok r) : r.map (·.1) = algorithmNames := by
  cases text1 with
  | none => simp [similarity] at hr
  | some a =>
    cases text2 with
    | none => simp [similarity] at hr
    | some b =>
      simp only [similarity, Except.ok.injEq] at hr
      subst hr
      rfl

theorem averages_keys (toFixed : JSNumber → JSString) (algorithms : List String)
    (questions : JSObject ℕ SimilarityResult) (algo : String) (h : algo ∈ algorithms) :
    fixedCell toFixed (averages algorithms questions) algo =
      Except.ok (toFixed (valueOf (averages algorithms questions) algo)) := by
  have := lookupKey_averages algorithms questions algo h
  simp [fixedCell, valueOf, this]

/-- The row of a question whose result holds every algorithm. -/
theorem questionRow_ok (toFixed : JSNumber → JSString) (algorithms : List String)
    (questions : JSObject ℕ SimilarityResult) (qId : ℕ) (r : SimilarityResult)
    (hq : lookupKey questions qId = some r) (hr : ∀ algo ∈ algorithms, algo ∈ r.map (·.1)) :
    questionRow toFixed algorithms questions qId =
      Except.ok (numberToString qId ::
        algorithms.map (fun algo => toFixed (score questions qId algo))) := by
  unfold questionRow
  rw [mapM_ok _ (fun algo => toFixed (score questions qId algo))]
  · rfl
  · intro algo ha
    rw [hq]
    simp only
    rw [fixedCell_ok toFixed r algo (hr algo ha)]
    simp [score, valueOf, hq]

/-- The table that `processDir` hands to `stringify`, row by row. -/
theorem reportRows_ok (h : Host) (toFixed : JSNumber → JSString)
    (sourceFile targetFile source target : JSString) (stats : Stats)
    (hok : processDir h sourceFile targetFile = Except.ok stats) :
    stats.files.map (·.1) = algorithmNames ∧
    reportRows toFixed source target stats =
      Except.ok
        ([ [utf16 "sep=,"], [source], [utf16 "Target file", target], [],
           utf16 "" :: algorithmNames.map utf16,
           utf16 "Files" :: algorithmNames.map (fun algo => toFixed (valueOf stats.files algo)),
           utf16 "Averages" ::
             algorithmNames.map (fun algo => toFixed (valueOf stats.average algo)) ] ++
          (List.range' 1 50).map
            (fun i => numberToString i ::
              algorithmNames.map (fun algo => toFixed (score stats.questions i algo)))) := by
  obtain ⟨files, questions, hf, hq, rfl⟩ := processDir_ok h sourceFile targetFile stats hok
  have hkeys := similarity_keys h _ _ files hf
  obtain ⟨k1, k2⟩ := questionsLoop_ok h _ _ questions hq
  refine ⟨hkeys, ?_⟩
  unfold reportRows
  simp only [hkeys, k1]
  rw [mapM_ok _ (fun algo => toFixed (valueOf files algo)) algorithmNames
      (fun algo ha => fixedCell_ok toFixed files algo (hkeys ▸ ha)),
    mapM_ok _ (fun algo => toFixed (valueOf (averages algorithmNames questions) algo))
      algorithmNames (fun algo ha => averages_keys toFixed algorithmNames questions algo ha),
    mapM_ok _ (fun i => numberToString i ::
        algorithmNames.map (fun algo => toFixed (score questions i algo))) (List.range' 1 50)]
  · rfl
  · intro i hi
    obtain ⟨r, hr, hl⟩ := k2 i hi
    have hrk := similarity_keys h _ _ r hr
    exact questionRow_ok toFixed algorithmNames questions i r hl (fun algo ha => hrk ▸ ha)

/-- The cell in column `k + 1` of a row that lists one cell per algorithm after its label. -/
theorem row_cell (label : JSString) (cell : String → JSString) (algorithms : List String)
    (k : ℕ) (algo : String) (hk : algorithms[k]? = some algo) :
    (label :: algorithms.map cell)[k + 1]? = some (cell algo) := by
  rw [List.getElem?_cons_succ, List.getElem?_map, hk]
  rfl

/-- The row of question `i` stands at position `6 + i` of the table. -/
theorem question_row_position (row : ℕ → List JSString) (fixed : List (List JSString))
    (hfixed : fixed.length = 7) (i : ℕ) (h1 : 1 ≤ i) (h50 : i ≤ 50) :
    (fixed ++ (List.range' 1 50).map row)[6 + i]? = some (row i) := by
  rw [List.getElem?_append_right (by omega), List.getElem?_map, hfixed,
    List.getElem?_range' 1 1 (by omega : 6 + i - 7 < 50)]
  simp only [Option.map_some']
  congr 2
  omega

/-- C11 (report row shape): whenever `processDir` completes, the table it hands to
`stringify` is assembled without an error and has 57 rows; row 4 is the column header
`['', ...algorithms]`; the Files row, the Averages row and the fifty question rows have
as many cells as the header; in each of them the cell of column `k + 1` is the
`toFixed(2)` of the score of the `k`-th algorithm of the header; and the row of question
`i` stands at position `6 + i` with the numeral of `i` as its first cell, so the question
rows follow in ascending order of the index from 1 to 50. -/
theorem report_row_shape (h : Host) (toFixed : JSNumber → JSString)
    (sourceFile targetFile source target : JSString) (stats : Stats)
    (hok : processDir h sourceFile targetFile = Except.ok stats) :
    ∃ rows, reportRows toFixed source target stats = Except.ok rows ∧
      rows.length = 57 ∧
      rows[4]? = some (utf16 "" :: (stats.files.map (·.1)).map utf16) ∧
      (∀ row ∈ rows.drop 4, row.length = (stats.files.map (·.1)).length + 1) ∧
      rows[5]?.bind (·[0]?) = some (utf16 "Files") ∧
      rows[6]?.bind (·[0]?) = some (utf16 "Averages") ∧
      (∀ i, 1 ≤ i → i ≤ 50 → rows[6 + i]?.bind (·[0]?) = some (numberToString i)) ∧
      ∀ k algo, (stats.files.map (·.1))[k]? = some algo →
        rows[4]?.bind (·[k + 1]?) = some (utf16 algo) ∧
        rows[5]?.bind (·[k + 1]?) = some (toFixed (valueOf stats.files algo)) ∧
        rows[6]?.bind (·[k + 1]?) = some (toFixed (valueOf stats.average algo)) ∧
        ∀ i, 1 ≤ i → i ≤ 50 →
          rows[6 + i]?.bind (·[k + 1]?) = some (toFixed (score stats.questions i algo)) := by
  obtain ⟨hkeys, hrows⟩ := reportRows_ok h toFixed sourceFile targetFile source target stats hok
  refine ⟨_, hrows, ?_, ?_, ?_, ?_, ?_, ?_, ?_⟩
  · simp
  · rw [hkeys]; rfl
  · intro row hrow
    rw [hkeys]
    simp only [List.cons_append, List.nil_append, List.drop_succ_cons, List.drop_zero,
      List.mem_cons, List.mem_map] at hrow
    rcases hrow with rfl | rfl | rfl | ⟨i, -, rfl⟩ <;> simp
  · rfl
  · rfl
  · intro i h1 h50
    rw [question_row_position _ _ ?_ i h1 h50]
    · rfl
    · rfl
  · intro k algo hk
    rw [hkeys] at hk
    refine ⟨?_, ?_, ?_, ?_⟩
    · exact row_cell (utf16 "") utf16 algorithmNames k algo hk
    · exact row_cell (utf16 "Files") (fun algo => toFixed (valueOf stats.files algo))
        algorithmNames k algo hk
    · exact row_cell (utf16 "Averages") (fun algo => toFixed (valueOf stats.average algo))
        algorithmNames k algo hk
    · intro i h1 h50
      rw [question_row_position _ _ ?_ i h1 h50]
      · exact row_cell (numberToString i) (fun algo => toFixed (score stats.questions i algo))
          algorithmNames k algo hk
      · rfl

/-- Witness of C11: a source and a target that both consist of the fifty blocks
`"i. q\n\n"`; `processDir` completes, the table has 57 rows, its rows from the header on
have 13 cells, and the row of question 1 reads `1, 100.00, 100.00, 100.00, 0.00, ...`
with the formatter `toFixed2` (the host's supplementary metrics being constantly 0). -/
theorem report_row_shape_witness :
    (∃ stats rows,
      processDir asciiHost
        (document ((List.range' 1 50).map (fun i => (numberToString i, utf16 "q"))))
        (document ((List.range' 1 50).map (fun i => (numberToString i, utf16 "q")))) =
          Except.ok stats ∧
      reportRows toFixed2 (utf16 "a.txt") (utf16 "b.txt") stats = Except.ok rows ∧
      rows.length = 57 ∧ (∀ row ∈ rows.drop 4, row.length = 13) ∧
      ∀ i, 1 ≤ i → i ≤ 50 → rows[6 + i]?.bind (·[0]?) = some (numberToString i)) ∧
    (processDir asciiHost
        (document ((List.range' 1 50).map (fun i => (numberToString i, utf16 "q"))))
        (document ((List.range' 1 50).map (fun i => (numberToString i, utf16 "q"))))).toOption.bind
      (fun stats => (reportRows toFixed2 (utf16 "a.txt") (utf16 "b.txt") stats).toOption.bind
        (fun rows => rows[7]?)) =
      some [utf16 "1", utf16 "100.00", utf16 "100.00", utf16 "100.00", utf16 "0.00",
        utf16 "0.00", utf16 "0.00", utf16 "0.00", utf16 "0.00", utf16 "0.00", utf16 "0.00",
        utf16 "0.00", utf16 "0.00"] := by
  constructor
  · cases hp : processDir asciiHost
        (document ((List.range' 1 50).map (fun i => (numberToString i, utf16 "q"))))
        (document ((List.range' 1 50).map (fun i => (numberToString i, utf16 "q")))) with
    | error e =>
      exfalso
      have ht : (processDir asciiHost
        (document ((List.range' 1 50).map (fun i => (numberToString i, utf16 "q"))))
        (document ((List.range' 1 50).map (fun i => (numberToString i, utf16 "q"))))).isOk
          = true := by decide!
      rw [hp] at ht
      simp [Except.isOk, Except.toBool] at ht
    | ok stats =>
      obtain ⟨rows, r1, r2, r3, r4, -, -, r7, -⟩ :=
        report_row_shape asciiHost toFixed2 _ _ (utf16 "a.txt") (utf16 "b.txt") stats hp
      have hk : stats.files.map (·.1) = algorithmNames :=
        (reportRows_ok asciiHost toFixed2 _ _ (utf16 "a.txt") (utf16 "b.txt") stats hp).1
      refine ⟨stats, rows, rfl, r1, r2, ?_, r7⟩
      intro row hrow
      rw [r4 row hrow, hk]
      rfl
  · decide!

/-! ## The averages -/

/-- A sum accumulated over finite numbers is finite: the accumulation in doubles. -/
theorem foldl_add_fin (f : ℕ → JSNumber) (v : ℕ → ℚ) :
    ∀ (l : List ℕ) (s : ℚ), (∀ i ∈ l, f i = JSNumber.fin (v i)) →
      l.foldl (fun sum i => sum.add (f i)) (JSNumber.fin s) =
        JSNumber.fin (l.foldl (fun acc i => rnd (acc + v i)) s) := by
  intro l
  induction l with
  | nil => intro s _; rfl
  | cons i l ih =>
    intro s hf
    rw [List.foldl_cons, List.foldl_cons, hf i (List.mem_cons_self _ _)]
    exact ih _ (fun j hj => hf j (List.mem_cons_of_mem _ hj))

/-- Two accumulations over the same indices with the same summands are equal. -/
theorem foldl_add_congr (f g : ℕ → JSNumber) :
    ∀ (l : List ℕ) (s : JSNumber), (∀ i ∈ l, f i = g i) →
      l.foldl (fun sum i => sum.add (f i)) s = l.foldl (fun sum i => sum.add (g i)) s := by
  intro l
  induction l with
  | nil => intro s _; rfl
  | cons i l ih =>
    intro s hf
    rw [List.foldl_cons, List.foldl_cons, hf i (List.mem_cons_self _ _)]
    exact ih _ (fun j hj => hf j (List.mem_cons_of_mem _ hj))

/-- A sum of values between 0 and `B`. -/
theorem sum_map_bounds (v : ℕ → ℚ) (B : ℚ) :
    ∀ l : List ℕ, (∀ i ∈ l, 0 ≤ v i ∧ v i ≤ B) →
      0 ≤ (l.map v).sum ∧ (l.map v).sum ≤ B * l.length := by
  intro l
  induction l with
  | nil => intro _; simp
  | cons i l ih =>
    intro hv
    obtain ⟨a, b⟩ := hv i (List.mem_cons_self _ _)
    obtain ⟨c, d⟩ := ih (fun j hj => hv j (List.mem_cons_of_mem _ hj))
    simp only [List.map_cons, List.sum_cons, List.length_cons, Nat.cast_add, Nat.cast_one]
    constructor
    · linarith
    · linarith

/-- Accumulating non-negative values in doubles: each of the additions has relative
error at most `2^-53`. -/
theorem foldl_rnd_bounds (v : ℕ → ℚ) :
    ∀ (l : List ℕ) (s : ℚ), 0 ≤ s → (∀ i ∈ l, 0 ≤ v i) →
      (s + (l.map v).sum) * (1 - 1 / 2 ^ 53) ^ l.length ≤
          l.foldl (fun acc i => rnd (acc + v i)) s ∧
        l.foldl (fun acc i => rnd (acc + v i)) s ≤
          (s + (l.map v).sum) * (1 + 1 / 2 ^ 53) ^ l.length := by
  intro l
  induction l with
  | nil => intro s _ _; simp
  | cons i l ih =>
    intro s hs hv
    have hi := hv i (List.mem_cons_self _ _)
    have hl : ∀ j ∈ l, 0 ≤ v j := fun j hj => hv j (List.mem_cons_of_mem _ hj)
    have hsum : 0 ≤ (l.map v).sum := List.sum_nonneg (by
      intro x hx
      obtain ⟨j, hj, rfl⟩ := List.mem_map.1 hx
      exact hl j hj)
    have h0 : 0 ≤ s + v i := by linarith
    obtain ⟨k1, k2⟩ := ih (rnd (s + v i)) (rnd_nonneg h0) hl
    have u1 := rnd_le_mul h0
    have u2 := mul_le_rnd h0
    have p1 : (0 : ℚ) ≤ (1 - 1 / 2 ^ 53) ^ l.length := by positivity
    have p2 : (0 : ℚ) ≤ (1 + 1 / 2 ^ 53) ^ l.length := by positivity
    have q1 : (0 : ℚ) ≤ 1 - 1 / 2 ^ 53 := by norm_num
    simp only [List.foldl_cons, List.map_cons, List.sum_cons, List.length_cons]
    rw [pow_succ (1 - 1 / 2 ^ 53 : ℚ) l.length, pow_succ (1 + 1 / 2 ^ 53 : ℚ) l.length]
    constructor
    · refine le_trans ?_ k1
      have : (s + (v i + (l.map v).sum)) * (1 - 1 / 2 ^ 53) ≤ rnd (s + v i) + (l.map v).sum := by
        have : (l.map v).sum * (1 - 1 / 2 ^ 53) ≤ (l.map v).sum := by
          apply mul_le_of_le_one_right hsum; norm_num
        nlinarith
      calc (s + (v i + (l.map v).sum)) * ((1 - 1 / 2 ^ 53) ^ l.length * (1 - 1 / 2 ^ 53))
          = ((s + (v i + (l.map v).sum)) * (1 - 1 / 2 ^ 53)) * (1 - 1 / 2 ^ 53) ^ l.length := by
            ring
        _ ≤ (rnd (s + v i) + (l.map v).sum) * (1 - 1 / 2 ^ 53) ^ l.length :=
            mul_le_mul_of_nonneg_right this p1
    · refine le_trans k2 ?_
      have : rnd (s + v i) + (l.map v).sum ≤ (s + (v i + (l.map v).sum)) * (1 + 1 / 2 ^ 53) := by
        have : (l.map v).sum ≤ (l.map v).sum * (1 + 1 / 2 ^ 53) := by
          apply le_mul_of_one_le_right hsum; norm_num
        nlinarith
      calc (rnd (s + v i) + (l.map v).sum) * (1 + 1 / 2 ^ 53) ^ l.length
          ≤ ((s + (v i + (l.map v).sum)) * (1 + 1 / 2 ^ 53)) * (1 + 1 / 2 ^ 53) ^ l.length :=
            mul_le_mul_of_nonneg_right this p2
        _ = (s + (v i + (l.map v).sum)) * ((1 + 1 / 2 ^ 53) ^ l.length * (1 + 1 / 2 ^ 53)) := by
            ring

/-- The mean of fifty values between 0 and 101, accumulated and divided in doubles, is
within `10^-12` of their exact mean. -/
theorem mean_close (v : ℕ → ℚ) (l : List ℕ) (hl : l.length = 50)
    (hv : ∀ i ∈ l, 0 ≤ v i ∧ v i ≤ 101) :
    |rnd (l.foldl (fun acc i => rnd (acc + v i)) 0 / 50) - (l.map v).sum / 50| ≤ 1 / 10 ^ 12 := by
  obtain ⟨s0, s1⟩ := sum_map_bounds v 101 l hv
  obtain ⟨k1, k2⟩ := foldl_rnd_bounds v l 0 le_rfl (fun i hi => (hv i hi).1)
  rw [hl] at k1 k2 s1
  rw [zero_add] at k1 k2
  set S := (l.map v).sum with hS
  set F := l.foldl (fun acc i => rnd (acc + v i)) 0 with hF
  have hF0 : 0 ≤ F := le_trans (by positivity) k1
  have h50 : 0 ≤ F / 50 := by positivity
  have u1 := rnd_le_mul h50
  have u2 := mul_le_rnd h50
  have c1 : (1 + 1 / 2 ^ 53 : ℚ) ^ 50 * (1 + 1 / 2 ^ 53) ≤ 1 + 1 / (101 * 10 ^ 12) := by norm_num
  have c2 : (1 : ℚ) - 1 / (101 * 10 ^ 12) ≤ (1 - 1 / 2 ^ 53) ^ 50 * (1 - 1 / 2 ^ 53) := by
    norm_num
  have s2 : S ≤ 5050 := by norm_num at s1; linarith
  have e1 : rnd (F / 50) ≤ S / 50 * ((1 + 1 / 2 ^ 53) ^ 50 * (1 + 1 / 2 ^ 53)) := by
    calc rnd (F / 50) ≤ F / 50 * (1 + 1 / 2 ^ 53) := u1
      _ ≤ S * (1 + 1 / 2 ^ 53) ^ 50 / 50 * (1 + 1 / 2 ^ 53) := by gcongr
      _ = S / 50 * ((1 + 1 / 2 ^ 53) ^ 50 * (1 + 1 / 2 ^ 53)) := by ring
  have e2 : S / 50 * ((1 - 1 / 2 ^ 53) ^ 50 * (1 - 1 / 2 ^ 53)) ≤ rnd (F / 50) := by
    calc S / 50 * ((1 - 1 / 2 ^ 53) ^ 50 * (1 - 1 / 2 ^ 53))
        = S * (1 - 1 / 2 ^ 53) ^ 50 / 50 * (1 - 1 / 2 ^ 53) := by ring
      _ ≤ F / 50 * (1 - 1 / 2 ^ 53) := by gcongr
      _ ≤ rnd (F / 50) := u2
  have hS50 : 0 ≤ S / 50 := by positivity
  have f1 : S / 50 * ((1 + 1 / 2 ^ 53) ^ 50 * (1 + 1 / 2 ^ 53)) ≤
      S / 50 * (1 + 1 / (101 * 10 ^ 12)) := mul_le_mul_of_nonneg_left c1 hS50
  have f2 : S / 50 * (1 - 1 / (101 * 10 ^ 12)) ≤
      S / 50 * ((1 - 1 / 2 ^ 53) ^ 50 * (1 - 1 / 2 ^ 53)) := mul_le_mul_of_nonneg_left c2 hS50
  have g : S / 50 * (1 / (101 * 10 ^ 12)) ≤ 1 / 10 ^ 12 := by
    have : S / 50 ≤ 101 := by linarith
    calc S / 50 * (1 / (101 * 10 ^ 12)) ≤ 101 * (1 / (101 * 10 ^ 12)) := by gcongr
      _ = 1 / 10 ^ 12 := by norm_num
  rw [abs_le]
  constructor <;> nlinarith

/-- The loop over the question indices completes when both maps hold every index. -/
theorem questionsLoop_complete (h : Host) (src tgt : JSObject JSString JSString)
    (hall : ∀ i ∈ List.range' 1 50,
      (lookupKey src (numberToString i)).isSome = true ∧
      (lookupKey tgt (numberToString i)).isSome = true) :
    ∃ qs, questionsLoop h src tgt = Except.ok qs := by
  unfold questionsLoop
  generalize List.range' 1 50 = indices at hall
  generalize ([] : JSObject ℕ SimilarityResult) = acc
  induction indices generalizing acc with
  | nil => exact ⟨acc, rfl⟩
  | cons i indices ih =>
    obtain ⟨a, b⟩ := hall i (List.mem_cons_self _ _)
    obtain ⟨s, hs⟩ := Option.isSome_iff_exists.1 a
    obtain ⟨t, ht⟩ := Option.isSome_iff_exists.1 b
    rw [List.foldlM_cons, hs, ht]
    simp only [similarity, bind, Except.bind, pure, Except.pure]
    exact ih (fun j hj => hall j (List.mem_cons_of_mem _ hj)) _

/-- The loop over the question indices reads the two maps at the indices 1 to 50 only. -/
theorem questionsLoop_congr (h : Host) (src tgt src2 tgt2 : JSObject JSString JSString)
    (hsame : ∀ i ∈ List.range' 1 50,
      lookupKey src2 (numberToString i) = lookupKey src (numberToString i) ∧
      lookupKey tgt2 (numberToString i) = lookupKey tgt (numberToString i)) :
    questionsLoop h src2 tgt2 = questionsLoop h src tgt := by
  unfold questionsLoop
  generalize List.range' 1 50 = indices at hsame
  generalize ([] : JSObject ℕ SimilarityResult) = acc
  induction indices generalizing acc with
  | nil => rfl
  | cons i indices ih =>
    obtain ⟨a, b⟩ := hsame i (List.mem_cons_self _ _)
    rw [List.foldlM_cons, List.foldlM_cons, a, b]
    cases similarity h (lookupKey src (numberToString i)) (lookupKey tgt (numberToString i)) with
    | error e => rfl
    | ok r =>
      simp only [bind, Except.bind, pure, Except.pure]
      exact ih (fun j hj => hsame j (List.mem_cons_of_mem _ hj)) _

/-- C7 (average denominator).  `processDir` completes exactly when both QuestionMaps hold
every index from 1 to 50, and then: `stats.questions` has exactly the keys 1 to 50, each
with the `similarity` of the two texts of that index; for every algorithm key
`average[algo]` is the sum of `Number(questions[i][algo])` over `i` from 1 to 50,
accumulated in this order from 0, divided by 50; when the fifty scores are numbers
between 0 and 101, that double is within `10^-12` of their exact mean, the exact sum
divided by 50; and nothing else in the two maps has an influence: another pair of
documents whose maps agree with these at the indices 1 to 50, whatever further keys and
however many keys they hold, has the same questions and the same averages. -/
theorem average_over_fifty (h : Host) (source target : JSString) :
    ((∃ stats, processDir h source target = Except.ok stats) ↔
      ∀ i ∈ List.range' 1 50,
        (lookupKey (getQuestions (eol source)) (numberToString i)).isSome = true ∧
        (lookupKey (getQuestions (eol target)) (numberToString i)).isSome = true) ∧
    ∀ stats, processDir h source target = Except.ok stats →
      (∃ results : ℕ → SimilarityResult,
        stats.questions.map (·.1) = List.range' 1 50 ∧
        (∀ i ∈ List.range' 1 50,
          similarity h (lookupKey (getQuestions (eol source)) (numberToString i))
            (lookupKey (getQuestions (eol target)) (numberToString i)) =
              Except.ok (results i) ∧
          lookupKey stats.questions i = some (results i)) ∧
        ∀ algo ∈ stats.files.map (·.1),
          lookupKey stats.average algo =
            some (((List.range' 1 50).foldl
              (fun sum i => sum.add ((lookupKey (results i) algo).getD JSNumber.nan))
              (JSNumber.ofNat 0)).div (JSNumber.ofNat 50)) ∧
          ∀ v : ℕ → ℚ,
            (∀ i ∈ List.range' 1 50,
              lookupKey (results i) algo = some (JSNumber.fin (v i)) ∧ 0 ≤ v i ∧ v i ≤ 101) →
            ∃ a, lookupKey stats.average algo = some (JSNumber.fin a) ∧
              |a - ((List.range' 1 50).map v).sum / 50| ≤ 1 / 10 ^ 12) ∧
      ∀ source2 target2 stats2, processDir h source2 target2 = Except.ok stats2 →
        (∀ i ∈ List.range' 1 50,
          lookupKey (getQuestions (eol source2)) (numberToString i) =
            lookupKey (getQuestions (eol source)) (numberToString i) ∧
          lookupKey (getQuestions (eol target2)) (numberToString i) =
            lookupKey (getQuestions (eol target)) (numberToString i)) →
        stats2.questions = stats.questions ∧ stats2.average = stats.average := by
  have hcontent : ∀ stats, processDir h source target = Except.ok stats →
      ∃ files questions,
        similarity h (some (eol source)) (some (eol target)) = Except.ok files ∧
        questionsLoop h (getQuestions (eol source)) (getQuestions (eol target)) =
          Except.ok questions ∧
        stats = { files := files, average := averages (files.map (·.1)) questions,
                  questions := questions } := processDir_ok h source target
  refine ⟨⟨?_, ?_⟩, ?_⟩
  · rintro ⟨stats, hok⟩ i hi
    obtain ⟨files, questions, -, hq, -⟩ := hcontent stats hok
    obtain ⟨r, hr, -⟩ := (questionsLoop_ok h _ _ questions hq).2 i hi
    cases hs : lookupKey (getQuestions (eol source)) (numberToString i) with
    | none => rw [hs] at hr; simp [similarity] at hr
    | some s =>
      cases ht : lookupKey (getQuestions (eol target)) (numberToString i) with
      | none => rw [hs, ht] at hr; simp [similarity] at hr
      | some t => simp
  · intro hall
    obtain ⟨qs, hq⟩ := questionsLoop_complete h _ _ hall
    unfold processDir
    dsimp only
    rw [hq]
    exact ⟨_, rfl⟩
  · intro stats hok
    obtain ⟨files, questions, hf, hq, rfl⟩ := hcontent stats hok
    obtain ⟨k1, k2⟩ := questionsLoop_ok h _ _ questions hq
    refine ⟨⟨fun i => (lookupKey questions i).getD [], k1, ?_, ?_⟩, ?_⟩
    · intro i hi
      obtain ⟨r, hr, hl⟩ := k2 i hi
      simp only [hl, Option.getD_some]
      exact ⟨hr, trivial⟩
    · intro algo halgo
      have hav := lookupKey_averages (files.map (·.1)) questions algo halgo
      rw [k1] at hav
      have hsum : (List.range' 1 50).foldl (fun sum key => sum.add (score questions key algo))
            (JSNumber.ofNat 0) =
          (List.range' 1 50).foldl
            (fun sum i => sum.add
              ((lookupKey ((lookupKey questions i).getD []) algo).getD JSNumber.nan))
            (JSNumber.ofNat 0) := by
        apply foldl_add_congr
        intro i hi
        obtain ⟨r, -, hl⟩ := k2 i hi
        simp [score, hl]
      rw [hsum] at hav
      have hlen : (List.range' 1 50).length = 50 := by simp
      rw [hlen] at hav
      refine ⟨hav, ?_⟩
      intro v hv
      rw [hav]
      have hfin := foldl_add_fin
        (fun i => (lookupKey ((lookupKey questions i).getD []) algo).getD JSNumber.nan) v
        (List.range' 1 50) 0 (fun i hi => by simp [(hv i hi).1])
      have h0 : JSNumber.ofNat 0 = JSNumber.fin 0 := by simp [JSNumber.ofNat]
      rw [h0, hfin]
      refine ⟨rnd ((List.range' 1 50).foldl (fun acc i => rnd (acc + v i)) 0 / 50), ?_,
        mean_close v (List.range' 1 50) hlen (fun i hi => (hv i hi).2)⟩
      simp [JSNumber.div, JSNumber.ofNat]
    · intro source2 target2 stats2 hok2 hsame
      obtain ⟨files2, questions2, hf2, hq2, rfl⟩ := processDir_ok h source2 target2 stats2 hok2
      rw [questionsLoop_congr h _ _ _ _ hsame, hq] at hq2
      simp only [Except.ok.injEq] at hq2
      subst hq2
      rw [similarity_keys h _ _ files hf, similarity_keys h _ _ files2 hf2]
      exact ⟨rfl, rfl⟩

/-- Both sample maps hold every index from 1 to 50. -/
theorem sample_complete : ∀ i ∈ List.range' 1 50,
    (lookupKey (getQuestions (eol sampleSource)) (numberToString i)).isSome = true ∧
    (lookupKey (getQuestions (eol sampleTarget)) (numberToString i)).isSome = true := by
  decide!

/-- The sample maps hold 52 and 51 keys, the exact ones 50 each. -/
theorem sample_lengths :
    (getQuestions (eol sampleSource)).length = 52 ∧
    (getQuestions (eol sampleTarget)).length = 51 ∧
    (getQuestions (eol exactSource)).length = 50 ∧
    (getQuestions (eol exactTarget)).length = 50 := by
  decide!

/-- The exact maps agree with the sample maps at the indices 1 to 50. -/
theorem sample_agree : ∀ i ∈ List.range' 1 50,
    lookupKey (getQuestions (eol exactSource)) (numberToString i) =
      lookupKey (getQuestions (eol sampleSource)) (numberToString i) ∧
    lookupKey (getQuestions (eol exactTarget)) (numberToString i) =
      lookupKey (getQuestions (eol sampleTarget)) (numberToString i) := by
  decide!

/-- The levenshtein average of the sample pair, evaluated. -/
theorem sample_levenshtein :
    (processDir asciiHost sampleSource sampleTarget).toOption.bind
      (fun stats => lookupKey stats.average "levenshtein") = some (JSNumber.fin 98) := by
  decide!

/-- The jaccard average of the sample pair, evaluated. -/
theorem sample_jaccard :
    (processDir asciiHost sampleSource sampleTarget).toOption.bind
      (fun stats => lookupKey stats.average "jaccard") = some (JSNumber.fin 98) := by
  decide!

/-- The cosine average of the sample pair, evaluated. -/
theorem sample_cosine :
    (processDir asciiHost sampleSource sampleTarget).toOption.bind
      (fun stats => lookupKey stats.average "cosine") = some (JSNumber.fin 98) := by
  decide!

set_option maxRecDepth 100000 in
/-- The levenshtein scores of the sample pair: 0 for question 1, 100 for the others. -/
theorem sample_scores : ∀ i ∈ List.range' 1 50,
    (similarity asciiHost (lookupKey (getQuestions (eol sampleSource)) (numberToString i))
      (lookupKey (getQuestions (eol sampleTarget)) (numberToString i))).toOption.bind
        (fun r => lookupKey r "levenshtein") =
      some (JSNumber.fin (if i = 1 then (0 : ℚ) else 100)) := by
  decide!

/-- Witness of C7: a source of 52 blocks `"i. q\n\n"` and a target of 51 blocks, `"1. x\n\n"`
followed by `"i. q\n\n"` for `i` from 2 to 51.  The maps hold 52 and 51 keys, `processDir`
completes with the keys 1 to 50, and the scores 0 for question 1 and 100 for the other 49
give the average 4900 / 50 = 98 for the three metrics of the repository, not 4900 / 52
nor 4900 / 51; the bound on the distance to the exact mean applies; and the pair cut down
to its first 50 blocks, whose maps hold 50 keys each, has the same averages. -/
theorem average_over_fifty_witness :
    (getQuestions (eol sampleSource)).length = 52 ∧
    (getQuestions (eol sampleTarget)).length = 51 ∧
    (getQuestions (eol exactSource)).length = 50 ∧
    (getQuestions (eol exactTarget)).length = 50 ∧
    ∃ stats, processDir asciiHost sampleSource sampleTarget = Except.ok stats ∧
      stats.questions.map (·.1) = List.range' 1 50 ∧
      lookupKey stats.average "levenshtein" = some (JSNumber.fin 98) ∧
      lookupKey stats.average "jaccard" = some (JSNumber.fin 98) ∧
      lookupKey stats.average "cosine" = some (JSNumber.fin 98) ∧
      (∃ a, lookupKey stats.average "levenshtein" = some (JSNumber.fin a) ∧
        |a - ((List.range' 1 50).map (fun i => if i = 1 then (0 : ℚ) else 100)).sum / 50| ≤
          1 / 10 ^ 12) ∧
      ((List.range' 1 50).map (fun i => if i = 1 then (0 : ℚ) else 100)).sum / 50 = 98 ∧
      ∃ stats2, processDir asciiHost exactSource exactTarget = Except.ok stats2 ∧
        stats2.questions = stats.questions ∧ stats2.average = stats.average := by
  have t := average_over_fifty asciiHost sampleSource sampleTarget
  obtain ⟨stats, hp⟩ := t.1.2 sample_complete
  obtain ⟨⟨results, hkeys, hres, havg⟩, hsame⟩ := t.2 stats hp
  have hfiles : "levenshtein" ∈ stats.files.map (·.1) := by
    obtain ⟨files, questions, hf, -, rfl⟩ := processDir_ok _ _ _ stats hp
    have := similarity_keys _ _ _ files hf
    simp only [this]
    decide
  have e1 := sample_levenshtein
  have e2 := sample_jaccard
  have e3 := sample_cosine
  rw [hp] at e1 e2 e3
  obtain ⟨stats2, hp2⟩ := (average_over_fifty asciiHost exactSource exactTarget).1.2
    (fun i hi => by
      obtain ⟨a, b⟩ := sample_agree i hi
      rw [a, b]
      exact sample_complete i hi)
  refine ⟨sample_lengths.1, sample_lengths.2.1, sample_lengths.2.2.1, sample_lengths.2.2.2,
    stats, hp, hkeys, e1, e2, e3, ?_, by decide!, stats2, hp2,
    hsame exactSource exactTarget stats2 hp2 sample_agree⟩
  refine (havg "levenshtein" hfiles).2 (fun i => if i = 1 then (0 : ℚ) else 100) ?_
  intro i hi
  have := sample_scores i hi
  rw [(hres i hi).1] at this
  refine ⟨this, ?_, ?_⟩ <;> dsimp only <;> split_ifs <;> norm_num

end Bakalauras
